import Mathlib

/-!
# goproxy: a shallow embedding of `main.go`

Go strings and byte slices are lists of byte values (`Nat`, each below 256 for
well-formed input).  Byte arithmetic of the source is written with an explicit
`% 256`, `uint16` arithmetic with an explicit `% 65536`.  A run-time panic of
the source (slice bounds, index out of range) is an explicit result.
-/

set_option autoImplicit false

namespace Goproxy

/-- A Go `string` or `[]byte`: the list of its bytes. -/
abbrev Str := List Nat

/-! ## Library functions of package `strings` / `bytes` -/

/-- Go `strings.HasPrefix(s, prefix)`:
`len(s) >= len(prefix) && s[:len(prefix)] == prefix`. -/
def HasPrefix (s pre : Str) : Bool :=
  decide (pre.length ≤ s.length) && decide (s.take pre.length = pre)

/-- Go `strings.HasSuffix(s, suffix)`:
`len(s) >= len(suffix) && s[len(s)-len(suffix):] == suffix`. -/
def HasSuffix (s suf : Str) : Bool :=
  decide (suf.length ≤ s.length) && decide (s.drop (s.length - suf.length) = suf)

/-! ## Configuration (`ChannelDefine`, `Config`) -/

/-- The struct `ChannelDefine` of `main.go` (field `Type` is `Typ` here, `Type`
being reserved). -/
structure ChannelDefine where
  Name : Str
  Typ : Str
  Addr : Str
deriving DecidableEq, Repr

/-- One element of `Config.Channel`: a domain list and the embedded
`ChannelDefine`. -/
structure ChannelRule where
  Domains : List Str
  ChannelDefine : ChannelDefine
deriving DecidableEq, Repr

/-- The global `Config` (the listen address plays no part in the handlers). -/
structure ConfigT where
  Channel : List ChannelRule
  Socks5 : ChannelDefine
  Default : ChannelDefine
deriving DecidableEq, Repr

/-- The body of the inner loop of `main` (lines 86-90): a domain that does not
start with `.` gets one prepended. -/
def normalizeDomain (d : Str) : Str :=
  if HasPrefix d [46] then d else 46 :: d

/-- The normalisation loop of `main` (lines 85-91) over the whole
configuration. -/
def normalizeConfig (cfg : ConfigT) : ConfigT :=
  { cfg with
    Channel := cfg.Channel.map fun ch =>
      { ch with Domains := ch.Domains.map normalizeDomain } }

/-! ## The channel router (`getProxyConnect`) -/

/-- The test of line 168, `d[1:] == domain || strings.HasSuffix(domain, d)`.
`none` is the panic of `d[1:]` on an empty rule domain. -/
def domainMatch (d domain : Str) : Option Bool :=
  match d with
  | [] => none
  | _ :: t => some (decide (t = domain) || HasSuffix domain d)

/-- The inner loop of `getProxyConnect` (lines 167-175) over the domains of one
rule: `some true` when a domain matches, `some false` when the loop runs out,
`none` when `d[1:]` panics before a match. -/
def scanDomains (domain : Str) : List Str → Option Bool
  | [] => some false
  | d :: ds =>
    match domainMatch d domain with
    | none => none
    | some true => some true
    | some false => scanDomains domain ds

/-- The outer loop of `getProxyConnect` (lines 166-176): the `ChannelDefine`
of the first rule with a matching domain, `some none` when the loop runs out,
`none` on a panic. -/
def scanChannels (domain : Str) : List ChannelRule → Option (Option ChannelDefine)
  | [] => some none
  | ch :: rest =>
    match scanDomains domain ch.Domains with
    | none => none
    | some true => some (some ch.ChannelDefine)
    | some false => scanChannels domain rest

/-- What an entry of `channelCache` points to.  The map holds pointers: line
170 stores `&channel.ChannelDefine`, the address of the loop variable, which is
a copy of the rule only this entry refers to; line 178 stores
`&Config.Default`, the address of the field of the global itself. -/
inductive ChannelRef where
  /-- a private copy of a rule's `ChannelDefine` -/
  | copy (ch : ChannelDefine)
  /-- the field `Config.Default` -/
  | configDefault
deriving DecidableEq, Repr

/-- Go `*channel` (line 164) with the global `Config` as it stands. -/
def ChannelRef.deref (cfg : ConfigT) : ChannelRef → ChannelDefine
  | .copy ch => ch
  | .configDefault => cfg.Default

/-- The map `channelCache`, as an association list; the first entry of a key is
the one in force. -/
abbrev Cache := List (Str × ChannelRef)

/-- The map read `channelCache[domain]`. -/
def cacheGet (cache : Cache) (domain : Str) : Option ChannelRef :=
  match cache with
  | [] => none
  | (k, v) :: rest => if k = domain then some v else cacheGet rest domain

/-- The map write `channelCache[domain] = ref`. -/
def cacheSet (cache : Cache) (domain : Str) (ref : ChannelRef) : Cache :=
  (domain, ref) :: cache

/-- The routing part of `getProxyConnect` (lines 159-181): the channel that is
passed on to `getConnectByChannel`, and the cache afterwards.  `none` is a
panic. -/
def getProxyConnect (cfg : ConfigT) (cache : Cache) (domain : Str) :
    Option (ChannelDefine × Cache) :=
  match cacheGet cache domain with
  | some ref => some (ref.deref cfg, cache)
  | none =>
    match scanChannels domain cfg.Channel with
    | none => none
    | some (some ch) => some (ch, cacheSet cache domain (.copy ch))
    | some none => some (cfg.Default, cacheSet cache domain .configDefault)

/-! ## Bytes, slices and `strconv.Atoi` -/

/-- Go `^c` on a `byte`. -/
def complement (c : Nat) : Nat := 255 - c % 256

/-- The ASCII bytes of a literal of the source. -/
def bytesOf (s : String) : Str := s.toList.map Char.toNat

/-- Go `s[lo:hi]`; `none` is the panic "slice bounds out of range". -/
def goSlice (s : Str) (lo hi : Nat) : Option Str :=
  if lo ≤ hi ∧ hi ≤ s.length then some ((s.take hi).drop lo) else none

/-- Go `make([]byte, n)`. -/
def makeBytes (n : Nat) : Str := List.replicate n 0

/-- Go `s[i]` on a slice whose length is known to exceed `i`. -/
def at_ (s : Str) (i : Nat) : Nat := s.getD i 0

/-- Go `copy(dst[off:], src)` for `off + len(src) <= len(dst)`. -/
def overwrite (dst : Str) (off : Nat) (src : Str) : Str :=
  dst.take off ++ src ++ dst.drop (off + src.length)

/-- Go `bytes.Index(s, sep)`: the index of the first instance of `sep` in `s`;
`none` stands for `-1`. -/
def Index : Str → Str → Option Nat
  | [], sep => if sep = [] then some 0 else none
  | c :: t, sep =>
    if HasPrefix (c :: t) sep then some 0 else (Index t sep).map (· + 1)

/-- Go `strings.IndexByte(s, c)` / `bytes.IndexByte(s, c)`. -/
def IndexByte : Str → Nat → Option Nat
  | [], _ => none
  | x :: t, c => if x = c then some 0 else (IndexByte t c).map (· + 1)

/-- The value of a run of ASCII digits, most significant first; `none` when a
byte is not a digit. -/
def digitsValue : Nat → Str → Option Nat
  | acc, [] => some acc
  | acc, c :: t => if 48 ≤ c ∧ c ≤ 57 then digitsValue (acc * 10 + (c - 48)) t else none

/-- Go `strconv.Atoi` with a 64-bit `int`: an optional sign, then one or more
decimal digits, and a value that fits `int`; `none` is `err != nil`. -/
def Atoi (s : Str) : Option Int :=
  match s with
  | [] => none
  | c :: t =>
    let neg := decide (c = 45)
    let ds := if c = 45 ∨ c = 43 then t else c :: t
    if ds = [] then none
    else
      match digitsValue 0 ds with
      | none => none
      | some v =>
        if neg then (if v ≤ 2 ^ 63 then some (-(v : Int)) else none)
        else (if v < 2 ^ 63 then some (v : Int) else none)

/-- Go `uint16(port)` for an `int`. -/
def toUint16 (port : Int) : Nat := (port % 65536).toNat

/-! ## The buffered reader (`bufio.Reader` over the client connection)

The connection is the list of the byte chunks that its successive `Read` calls
deliver (a call with less room than the chunk takes the front of it and leaves
the rest); after the last chunk `Read` returns `io.EOF`.  `buf` is
`b.buf[b.r:b.w]`, the bytes buffered and not yet consumed. -/

/-- The state of `bufio.NewReader(c)`. -/
structure Reader where
  buf : Str
  pending : List Str
deriving DecidableEq, Repr

/-- The constant `defaultBufSize` of package `bufio`. -/
def bufSize : Nat := 4096

/-- All bytes the reader will still hand out. -/
def Reader.flat (b : Reader) : Str := b.buf ++ b.pending.flatten

/-- One `Read(p)` on the connection with `len(p) = room`: the bytes read and
the connection afterwards; `none` is `io.EOF`. -/
def connRead (conn : List Str) (room : Nat) : Option (Str × List Str) :=
  match conn with
  | [] => none
  | c :: cs =>
    if c.length ≤ room then some (c, cs) else some (c.take room, c.drop room :: cs)

/-- The loop of `bufio.Reader.Peek` (`for b.w-b.r < n && b.w-b.r < len(b.buf)
&& b.err == nil \x7b b.fill() \x7d`), one step per chunk read. -/
def peekFill (n : Nat) (buf : Str) : List Str → Reader
  | [] => { buf := buf, pending := [] }
  | c :: cs =>
    if buf.length < n ∧ buf.length < bufSize then
      if c.length ≤ bufSize - buf.length then peekFill n (buf ++ c) cs
      else { buf := buf ++ c.take (bufSize - buf.length),
             pending := c.drop (bufSize - buf.length) :: cs }
    else { buf := buf, pending := c :: cs }

/-- Go `b.Peek(n)` for `n <= 4096`: the next `n` bytes without consuming them
(`none` when the stream ends before, `err != nil`) and the reader afterwards. -/
def Reader.Peek (b : Reader) (n : Nat) : Option Str × Reader :=
  let b1 := peekFill n b.buf b.pending
  if n ≤ b1.buf.length then (some (b1.buf.take n), b1) else (none, b1)

/-- The result of one `b.Read(p)`. -/
structure ReadResult where
  /-- the bytes copied into `p` -/
  data : Str
  /-- `err == io.EOF` -/
  eof : Bool
  /-- the chunk that this call read from the connection into `b.buf[0:]` -/
  refill : Option Str
  rd : Reader
deriving DecidableEq, Repr

/-- Go `b.Read(p)` with `len(p) = m > 0`.  With bytes buffered it copies from
the buffer.  With the buffer empty it reads the connection once: straight into
`p` when `m >= len(b.buf)`, else into `b.buf` from index 0 and copies from
there. -/
def Reader.Read (b : Reader) (m : Nat) : ReadResult :=
  if b.buf = [] then
    if bufSize ≤ m then
      match connRead b.pending m with
      | none => { data := [], eof := true, refill := none, rd := b }
      | some (c, cs) =>
        { data := c, eof := false, refill := none, rd := { buf := [], pending := cs } }
    else
      match connRead b.pending bufSize with
      | none => { data := [], eof := true, refill := none, rd := b }
      | some (c, cs) =>
        { data := c.take m, eof := false, refill := some c,
          rd := { buf := c.drop m, pending := cs } }
  else
    { data := b.buf.take m, eof := false, refill := none,
      rd := { b with buf := b.buf.drop m } }

/-- What a slice `b.buf[0:len(view)]` taken earlier shows after a chunk has
been read into `b.buf[0:]`. -/
def overlay (view : Str) (chunk : Str) : Str :=
  (chunk ++ view.drop chunk.length).take view.length

/-- The result of `io.ReadAtLeast`. -/
structure AtLeast where
  /-- `err == nil` -/
  ok : Bool
  /-- the destination slice afterwards -/
  temp : Str
  /-- the count `n` -/
  n : Nat
  /-- the earlier view of `b.buf[0:]` afterwards -/
  view : Str
  rd : Reader
deriving DecidableEq, Repr

/-- The loop of `io.ReadAtLeast`: `for n < min && err == nil \x7b nn, err =
r.Read(buf[n:]); n += nn \x7d`, then `n >= min` decides the error. -/
def readAtLeastLoop (min : Nat) : Nat → Str → Nat → Str → Reader → AtLeast
  | 0, temp, n, view, rd => { ok := decide (min ≤ n), temp := temp, n := n, view := view, rd := rd }
  | fuel + 1, temp, n, view, rd =>
    if n < min then
      let r := rd.Read (temp.length - n)
      let temp1 := overwrite temp n r.data
      let view1 := match r.refill with
        | none => view
        | some c => overlay view c
      if r.eof then
        { ok := false, temp := temp1, n := n + r.data.length, view := view1, rd := r.rd }
      else readAtLeastLoop min fuel temp1 (n + r.data.length) view1 r.rd
    else { ok := true, temp := temp, n := n, view := view, rd := rd }

/-- Go `io.ReadAtLeast(cr, temp, min)`.  A `Read` either takes bytes from the
buffer, or consumes a chunk of the connection, or ends the loop, so the loop
runs at most `len(pending) + 2` times. -/
def ReadAtLeast (rd : Reader) (temp : Str) (min : Nat) (view : Str) : AtLeast :=
  if temp.length < min then { ok := false, temp := temp, n := 0, view := view, rd := rd }
  else readAtLeastLoop min (rd.pending.length + 2) temp 0 view rd

/-- The result of `b.ReadSlice(delim)`. -/
structure SliceResult where
  line : Str
  /-- `err == nil` -/
  ok : Bool
  /-- `err == bufio.ErrBufferFull` -/
  full : Bool
  rd : Reader
deriving DecidableEq, Repr

/-- The loop of `bufio.Reader.ReadSlice`, one step per chunk read: search the
buffer for `delim`; failing that, report a full buffer, or the end of the
stream, or fill and search again. -/
def readSliceLoop (delim : Nat) (buf : Str) : List Str → SliceResult
  | [] =>
    match IndexByte buf delim with
    | some i =>
      { line := buf.take (i + 1), ok := true, full := false,
        rd := { buf := buf.drop (i + 1), pending := [] } }
    | none =>
      if bufSize ≤ buf.length then
        { line := buf, ok := false, full := true, rd := { buf := [], pending := [] } }
      else { line := buf, ok := false, full := false, rd := { buf := [], pending := [] } }
  | c :: cs =>
    match IndexByte buf delim with
    | some i =>
      { line := buf.take (i + 1), ok := true, full := false,
        rd := { buf := buf.drop (i + 1), pending := c :: cs } }
    | none =>
      if bufSize ≤ buf.length then
        { line := buf, ok := false, full := true, rd := { buf := [], pending := c :: cs } }
      else if c.length ≤ bufSize - buf.length then readSliceLoop delim (buf ++ c) cs
      else
        let buf1 := buf ++ c.take (bufSize - buf.length)
        let rest := c.drop (bufSize - buf.length) :: cs
        match IndexByte buf1 delim with
        | some i =>
          { line := buf1.take (i + 1), ok := true, full := false,
            rd := { buf := buf1.drop (i + 1), pending := rest } }
        | none =>
          { line := buf1, ok := false, full := true, rd := { buf := [], pending := rest } }

/-- Go `b.ReadSlice(delim)`: the bytes up to and including the first `delim`;
with `err == ErrBufferFull` the whole buffer when it fills up before a `delim`,
with `err == io.EOF` what is left when the stream ends before. -/
def Reader.ReadSlice (b : Reader) (delim : Nat) : SliceResult :=
  readSliceLoop delim b.buf b.pending

/-- Go `b.ReadLine()`: `(line, err == nil, reader)`; the flag `isPrefix` is
not used by the caller.  A line that overflows the buffer comes in pieces; the
end-of-line bytes are cut off. -/
def Reader.ReadLine (b : Reader) : Str × Bool × Reader :=
  let r := b.ReadSlice 10
  if r.full then
    if r.line ≠ [] ∧ r.line.getLast? = some 13 then
      (r.line.dropLast, true, { r.rd with buf := 13 :: r.rd.buf })
    else (r.line, true, r.rd)
  else if r.line = [] then ([], r.ok, r.rd)
  else if r.line.getLast? = some 10 then
    let l1 := r.line.dropLast
    if l1.getLast? = some 13 then (l1.dropLast, true, r.rd) else (l1, true, r.rd)
  else (r.line, true, r.rd)

/-- The loop of `collectFragments` behind `b.ReadBytes(delim)`: full buffers
are set aside until `ReadSlice` ends otherwise. -/
def readBytesLoop (delim : Nat) : Nat → Str → Reader → Str × Bool × Reader
  | 0, acc, rd => (acc, false, rd)
  | fuel + 1, acc, rd =>
    let r := rd.ReadSlice delim
    if r.full then readBytesLoop delim fuel (acc ++ r.line) r.rd
    else (acc ++ r.line, r.ok, r.rd)

/-- Go `b.ReadBytes(delim)`: `(bytes, err == nil, reader)`.  Every round but
the last consumes a full buffer, so the number of bytes left bounds the number
of rounds. -/
def Reader.ReadBytes (b : Reader) (delim : Nat) : Str × Bool × Reader :=
  readBytesLoop delim (b.flat.length + 1) [] b

/-- The loop of lines 337-344: `ReadLine` until an empty line (`some`, with
the reader after it) or an error (`none`). -/
def skipHeaders : Nat → Reader → Option Reader
  | 0, _ => none
  | fuel + 1, rd =>
    match rd.ReadLine with
    | (_, false, _) => none
    | (line, true, rd1) => if line.length = 0 then some rd1 else skipHeaders fuel rd1

/-! ## The inbound handler (`doProxy`) -/

/-- What lies outside the program: the outcome of the outbound connectors and
of the writes, and `net.IP.String`. -/
structure World where
  /-- `getConnectByChannel(channel, domain, port)` returns `err == nil` -/
  connect : ChannelDefine → Str → Nat → Bool
  /-- the `i`-th `c.Write` of the handler (from 0) returns `err == nil` -/
  clientWrite : Nat → Bool
  /-- `peer.Write` returns `err == nil` -/
  peerWrite : Bool
  /-- `net.IP(b).String()` -/
  ipString : Str → Str

/-- One call of `getConnectByChannel`. -/
structure Dial where
  channel : ChannelDefine
  domain : Str
  port : Nat
deriving DecidableEq, Repr

/-- How the handshake part of `doProxy` ends: it returns (the connection is
closed by the deferred `c.Close()`), it goes on to relay (lines 494-499), or it
panics. -/
inductive Status where
  | closed
  | relay
  | panicked
deriving DecidableEq, Repr

/-- What `doProxy` has done when its handshake part ends. -/
structure Outcome where
  status : Status
  /-- the calls of `getConnectByChannel`, in order -/
  dials : List Dial
  /-- the bytes written to the client `c` -/
  toClient : Str
  /-- the bytes written to `peer` -/
  toPeer : Str
  /-- the map `channelCache` -/
  cache : Cache
  /-- `c` and `cr` were wrapped in `EConn` / `EReader` (lines 482-485) -/
  wrapped : Bool
  /-- the reader `cr` -/
  rd : Reader
deriving DecidableEq, Repr

/-- An outcome without any dial or write. -/
def Outcome.quiet (st : Status) (cache : Cache) (rd : Reader) : Outcome :=
  { status := st, dials := [], toClient := [], toPeer := [], cache := cache,
    wrapped := false, rd := rd }

/-- The HTTP CONNECT branch of `doProxy` (lines 303-351). -/
def doConnect (cfg : ConfigT) (cache : Cache) (w : World) (rd : Reader) : Outcome :=
  let r1 := rd.ReadSlice 32
  if !r1.ok then Outcome.quiet .closed cache r1.rd
  else if r1.line ≠ bytesOf "CONNECT " then Outcome.quiet .closed cache r1.rd
  else
    let r2 := r1.rd.ReadSlice 58
    if !r2.ok then Outcome.quiet .closed cache r2.rd
    else if r2.line.length ≤ 1 then Outcome.quiet .closed cache r2.rd
    else
      let domain := r2.line.take (r2.line.length - 1)
      let r3 := r2.rd.ReadSlice 32
      if !r3.ok then Outcome.quiet .closed cache r3.rd
      else if r3.line.length ≤ 1 then Outcome.quiet .closed cache r3.rd
      else
        let _port := r3.line.take (r3.line.length - 1)
        match Atoi _port with
        | none => Outcome.quiet .closed cache r3.rd
        | some port =>
          match skipHeaders (r3.rd.flat.length + 1) r3.rd with
          | none => Outcome.quiet .closed cache r3.rd
          | some rd4 =>
            match getProxyConnect cfg cache domain with
            | none => Outcome.quiet .panicked cache rd4
            | some (ch, cache1) =>
              let d : Dial := { channel := ch, domain := domain, port := toUint16 port }
              if !w.connect ch domain (toUint16 port) then
                { status := .closed, dials := [d], toClient := [], toPeer := [],
                  cache := cache1, wrapped := false, rd := rd4 }
              else
                { status := .relay, dials := [d],
                  toClient :=
                    if w.clientWrite 0 then
                      bytesOf "HTTP/1.1 200 Connection established\r\n\r\n"
                    else [],
                  toPeer := [], cache := cache1, wrapped := false, rd := rd4 }

/-- The forward-proxy branch from `p3 := strings.IndexByte(url, ':')` on (lines
368-393): `url` is the authority and `line` the rewritten request line
`buff[:n]`. -/
def httpConnect (cfg : ConfigT) (cache : Cache) (w : World) (url line : Str) (rd : Reader) :
    Outcome :=
  let target : Option (Str × Int) :=
    match IndexByte url 58 with
    | none => some (url, 80)
    | some p3 =>
      match Atoi (url.drop (p3 + 1)) with
      | none => none
      | some port => some (url.take p3, port)
  match target with
  | none => Outcome.quiet .closed cache rd
  | some (domain, port) =>
    match getProxyConnect cfg cache domain with
    | none => Outcome.quiet .panicked cache rd
    | some (ch, cache1) =>
      let d : Dial := { channel := ch, domain := domain, port := toUint16 port }
      if !w.connect ch domain (toUint16 port) then
        { status := .closed, dials := [d], toClient := [], toPeer := [],
          cache := cache1, wrapped := false, rd := rd }
      else if !w.peerWrite then
        { status := .closed, dials := [d], toClient := [], toPeer := [],
          cache := cache1, wrapped := false, rd := rd }
      else
        { status := .relay, dials := [d], toClient := [], toPeer := line,
          cache := cache1, wrapped := false, rd := rd }

/-- The HTTP forward-proxy branch of `doProxy` (lines 353-393); the error of
`ReadBytes` is not looked at. -/
def doHttp (cfg : ConfigT) (cache : Cache) (w : World) (rd : Reader) : Outcome :=
  let (buff, _, rd1) := rd.ReadBytes 10
  match Index buff (bytesOf "http://") with
  | none => Outcome.quiet .closed cache rd1
  | some p1 =>
    match Index (buff.drop (p1 + 7)) (bytesOf "/") with
    | none => Outcome.quiet .closed cache rd1
    | some p2 =>
      let url := (buff.take (p1 + 7 + p2)).drop (p1 + 7)
      let buff1 := buff.take p1 ++ buff.drop (p1 + 7 + p2)
      let n := buff.length - (7 + p2)
      httpConnect cfg cache w url (buff1.take n) rd1

/-- The loop of lines 402-411 over the offered methods, from the current value
of `method`. -/
def selectMethod : Nat → Str → Nat
  | method, [] => method
  | method, ch :: rest =>
    if ch = 0 then
      (if method = 0xff then selectMethod 0 rest else selectMethod method rest)
    else if ch = 0x81 then 0x81
    else selectMethod method rest

/-- The result of the `switch buff[3]` of lines 433-462. -/
inductive Request where
  /-- `io.ReadAtLeast` failed: the handler returns -/
  | readError (rd : Reader)
  /-- a slice expression panicked -/
  | panic (rd : Reader)
  /-- the switch is left with these values of `temp`, `n`, `domain`, `port` -/
  | parsed (temp : Str) (n : Nat) (domain : Str) (port : Nat) (rd : Reader)
deriving DecidableEq, Repr

/-- The `switch buff[3]` of lines 433-462: `atyp` is `buff[3]`, `temp` the
buffer as the greeting left it. -/
def readRequest (w : World) (method atyp : Nat) (temp : Str) (rd : Reader) : Request :=
  if atyp = 1 ∨ atyp = 4 then
    let iplen := if atyp = 4 then 16 else 4
    let r := ReadAtLeast rd temp (6 + iplen) []
    if !r.ok then .readError r.rd
    else
      let end_ := 4 + iplen
      .parsed r.temp r.n (w.ipString ((r.temp.take end_).drop 4))
        ((at_ r.temp end_ * 256 % 65536 + at_ r.temp (end_ + 1)) % 65536) r.rd
  else if atyp = 3 then
    let r := ReadAtLeast rd temp (6 + at_ temp 4 + 1) []
    if !r.ok then .readError r.rd
    else
      let end_ := (at_ r.temp 4 + 5) % 256
      match goSlice r.temp 5 end_ with
      | none => .panic r.rd
      | some _domain =>
        let _domain1 := if method = 0x81 then _domain.map complement else _domain
        let temp1 := if method = 0x81 then overwrite r.temp 5 _domain1 else r.temp
        .parsed temp1 r.n _domain1
          ((at_ temp1 end_ * 256 % 65536 + at_ temp1 ((end_ + 1) % 256)) % 65536) r.rd
  else .parsed temp 0 [] 0 rd

/-- The SOCKS5 branch of `doProxy` after the method reply is written (lines
421-486): `temp` and `rd` as the greeting left them. -/
def socks5Connect (cfg : ConfigT) (cache : Cache) (w : World) (method : Nat) (temp : Str)
    (rd : Reader) : Outcome :=
  let sent : Str := [5, method]
  match rd.Peek 5 with
  | (none, rd2) => { Outcome.quiet .closed cache rd2 with toClient := sent }
  | (some hdr, rd2) =>
    if at_ hdr 1 ≠ 1 then { Outcome.quiet .closed cache rd2 with toClient := sent }
    else
      match readRequest w method (at_ hdr 3) temp rd2 with
      | .readError rd3 => { Outcome.quiet .closed cache rd3 with toClient := sent }
      | .panic rd3 => { Outcome.quiet .panicked cache rd3 with toClient := sent }
      | .parsed temp1 n domain port rd3 =>
        let route : Option (ChannelDefine × Cache) :=
          if method = 0 then some (cfg.Socks5, cache)
          else getProxyConnect cfg cache domain
        match route with
        | none => { Outcome.quiet .panicked cache rd3 with toClient := sent }
        | some (ch, cache1) =>
          let d : Dial := { channel := ch, domain := domain, port := port }
          if !w.connect ch domain port then
            let temp2 := overwrite temp1 1 [1]
            { status := .closed, dials := [d],
              toClient := if w.clientWrite 1 then sent ++ temp2.take n else sent,
              toPeer := [], cache := cache1, wrapped := false, rd := rd3 }
          else if !w.clientWrite 1 then
            { status := .closed, dials := [d], toClient := sent, toPeer := [],
              cache := cache1, wrapped := false, rd := rd3 }
          else
            { status := .relay, dials := [d],
              toClient := sent ++ [5, 0, 0, 1, 0, 0, 0, 0, 0, 0],
              toPeer := [], cache := cache1, wrapped := decide (method = 0x81),
              rd := rd3 }

/-- The SOCKS5 branch of `doProxy` (lines 395-486); `buff` is the slice that
`Peek(3)` returned, a view of the first three bytes of the reader's buffer. -/
def doSocks5 (cfg : ConfigT) (cache : Cache) (w : World) (buff : Str) (rd : Reader) :
    Outcome :=
  let g := ReadAtLeast rd (makeBytes 355) (2 + at_ buff 2) buff
  if !g.ok then Outcome.quiet .closed cache g.rd
  else
    match goSlice g.temp 2 ((at_ g.view 1 + 2) % 256) with
    | none => Outcome.quiet .panicked cache g.rd
    | some methods =>
      let method := selectMethod 0xff methods
      if method = 0xff then Outcome.quiet .closed cache g.rd
      else if !w.clientWrite 0 then Outcome.quiet .closed cache g.rd
      else socks5Connect cfg cache w method g.temp g.rd

/-- The handshake part of `doProxy` (lines 291-491) on a connection that
delivers the chunks `conn`, with the configuration `cfg` and the map
`channelCache` as they stand. -/
def doProxy (cfg : ConfigT) (cache : Cache) (w : World) (conn : List Str) : Outcome :=
  let cr : Reader := { buf := [], pending := conn }
  match cr.Peek 3 with
  | (none, rd) => Outcome.quiet .closed cache rd
  | (some buff, rd) =>
    if buff = bytesOf "CON" then doConnect cfg cache w rd
    else if 65 ≤ at_ buff 0 ∧ at_ buff 0 ≤ 90 then doHttp cfg cache w rd
    else if at_ buff 0 = 5 then doSocks5 cfg cache w buff rd
    else Outcome.quiet .closed cache rd

/-! ## The outbound connectors -/

/-- The request that `connectSocks5` builds in `send` (lines 237-249) once the
upstream has chosen `method`; `port` is a `uint16`. -/
def socks5Request (method : Nat) (domain : Str) (port : Nat) : Str :=
  [5, 1, 0, 3, domain.length % 256]
    ++ (if method = 0 then domain else domain.map complement)
    ++ [port / 256 % 256, port % 256]

/-- How `connectSocks5` returns. -/
inductive Socks5Result where
  /-- `err != nil` -/
  | failed
  /-- the connection `c2` as it is -/
  | plain
  /-- the connection wrapped in `EConn` -/
  | wrapped
deriving DecidableEq, Repr

/-- The exchange of `connectSocks5` after a successful dial (lines 220-288):
`resp` is what the first `c2.Read` delivers into the two-byte buffer and
`reply` what the second delivers into `send[0:10]` (`none`: `err != nil`),
`writeOk` the outcome of `c2.Write(send)`.  The result comes with the bytes
written to the upstream. -/
def connectSocks5 (resp : Option Str) (writeOk : Bool) (reply : Option Str)
    (domain : Str) (port : Nat) : Socks5Result × Str :=
  let hello : Str := [5, 2, 0, 0x81]
  match resp with
  | none => (.failed, hello)
  | some r =>
    if r.length ≠ 2 then (.failed, hello)
    else
      let method := at_ r 1
      if method ≠ 0 ∧ method ≠ 0x81 then (.failed, hello)
      else
        let send := socks5Request method domain port
        if !writeOk then (.failed, hello)
        else
          match reply with
          | none => (.failed, hello ++ send)
          | some rep =>
            let send1 := overwrite send 0 (rep.take 10)
            if at_ send1 1 ≠ 0 then (.failed, hello ++ send)
            else if method = 0 then (.plain, hello ++ send)
            else (.wrapped, hello ++ send)

/-- Go `strings.Split(s, ",")`. -/
def splitComma : Str → List Str
  | [] => [[]]
  | c :: t =>
    if c = 44 then [] :: splitComma t
    else
      match splitComma t with
      | [] => [[c]]
      | h :: rest => (c :: h) :: rest

/-- The globals `ssaddrs` and `sspos`. -/
structure SSPool where
  ssaddrs : List Str
  sspos : Nat
deriving DecidableEq, Repr

/-- The globals at program start: `ssaddrs` is nil, `sspos` is 0. -/
def SSPool.init : SSPool := { ssaddrs := [], sspos := 0 }

/-- How one call of `connectShadowSocks` ends. -/
inductive SSResult where
  /-- `ss.NewCipher` failed; the globals are untouched -/
  | cipherError (st : SSPool)
  /-- `ssaddrs[sspos]` is out of range -/
  | panic (st : SSPool)
  /-- `ss.DialWithRawAddr(rawaddr, addr, ...)` was called; `ok` is its outcome -/
  | dialed (addr rawaddr : Str) (ok : Bool) (st : SSPool)
deriving DecidableEq, Repr

/-- The function `connectShadowSocks` (lines 129-157) on the globals `st`.
`cipherOk` is the outcome of `ss.NewCipher(method, password)`, `dial addr` that
of `ss.DialWithRawAddr` to `addr`.  The `sync.Once` is a local variable of the
call, so the function given to `once.Do` runs in every call. -/
def connectShadowSocks (st : SSPool) (cipherOk : Bool) (dial : Str → Bool)
    (ssaddr domain : Str) (port : Nat) : SSResult :=
  if !cipherOk then .cipherError st
  else
    let st1 : SSPool := { st with ssaddrs := splitComma ssaddr }
    match st1.ssaddrs.get? st1.sspos with
    | none => .panic st1
    | some addr =>
      let rawaddr : Str :=
        [3, domain.length % 256] ++ domain ++ [port / 256 % 256, port % 256]
      if dial addr then .dialed addr rawaddr true st1
      else
        .dialed addr rawaddr false
          { st1 with sspos := (st1.sspos + 1) % st1.ssaddrs.length }

/-! ## Notions of the specification, and sample data -/

/-- The matching rule of the specification: `d` equals the rule domain without
its leading dot, or `d` ends with the rule domain. -/
def DomainMatches (rule d : Str) : Prop :=
  ∃ x, rule = 46 :: x ∧ (d = x ∨ ∃ p, d = p ++ 46 :: x)

/-- A rule matches a destination when one of its domains does. -/
def RuleMatches (r : ChannelRule) (d : Str) : Prop :=
  ∃ dom ∈ r.Domains, DomainMatches dom d

/-- Every rule domain of the configuration starts with a dot, as the loop of
`main` leaves them. -/
def Normalized (cfg : ConfigT) : Prop :=
  ∀ r ∈ cfg.Channel, ∀ dom ∈ r.Domains, ∃ x, dom = 46 :: x

/-- The decimal numeral of `n` in ASCII, most significant digit first. -/
def decimal (n : Nat) : Str :=
  if n = 0 then [48] else ((Nat.digits 10 n).reverse).map (· + 48)

/-- The stream begins with an empty line (`\r\n`), or holds a line end that an
empty line follows. -/
def HasBlank (s : Str) : Prop :=
  (∃ t, s = 13 :: 10 :: t) ∨ (∃ a b, s = a ++ 10 :: 13 :: 10 :: b)

/-- A host name of 4096 bytes `a`. -/
def longHost : Str := List.replicate 4096 97

/-- A world in which every connector and every write succeeds. -/
def World.good : World :=
  { connect := fun _ _ _ => true, clientWrite := fun _ => true, peerWrite := true,
    ipString := fun b => b }

/-- A world in which every connector fails and every write succeeds. -/
def World.refusing : World :=
  { connect := fun _ _ _ => false, clientWrite := fun _ => true, peerWrite := true,
    ipString := fun b => b }

/-- A channel definition that has only a name. -/
def sampleChannel (name : String) : ChannelDefine :=
  { Name := bytesOf name, Typ := [], Addr := [] }

/-- A configuration with one rule, for `.example.com`. -/
def sampleConfig : ConfigT :=
  { Channel := [{ Domains := [bytesOf ".example.com"], ChannelDefine := sampleChannel "rule" }],
    Socks5 := sampleChannel "socks5",
    Default := sampleChannel "default" }

/-! ## The obfuscating wrappers (`EConn`, `EReader`) -/

/-- The loop `for i := 0; i < n; i++ \x7b b[i] = ^b[i] \x7d` of lines 35-37 and
58-60 on the buffer `b`, for `n <= len(b)`. -/
def complementFirst (n : Nat) (b : Str) : Str :=
  (b.take n).map complement ++ b.drop n

/-- The method `EConn.Read` (lines 30-39).  `b` is the caller's buffer as
`c.Conn.Read(b)` has left it, `n` and `err` (`true` for `err != nil`) are what
that call returned.  The result is the buffer, the count and the error that the
caller gets. -/
def EConn.Read (b : Str) (n : Nat) (err : Bool) : Str × Nat × Bool :=
  if err then (b, n, err) else (complementFirst n b, n, err)

/-- The method `EConn.Write` (lines 41-47): the slice `b1` that is passed to
`c.Conn.Write`, whose count and error are returned as they are. -/
def EConn.Write (b : Str) : Str := b.map complement

/-- The method `EReader.Read` (lines 53-62), with `p`, `n`, `err` as for
`EConn.Read`. -/
def EReader.Read (p : Str) (n : Nat) (err : Bool) : Str × Nat × Bool :=
  if err then (p, n, err) else (complementFirst n p, n, err)

/-! ## The HTTP proxy connector (`connectHttpProxy`) -/

/-- Go `fmt.Sprintf(format, args...)` for a format whose only verb is `%v`;
`args` are the operands as `%v` prints them.  A verb that has no operand left
prints `%!v(MISSING)`.  (Operands left over at the end of the format do not
occur in `main.go`.) -/
def Sprintf : Str → List Str → Str
  | [], _ => []
  | [c], _ => [c]
  | c :: d :: rest, args =>
    if c = 37 ∧ d = 118 then
      match args with
      | [] => bytesOf "%!v(MISSING)" ++ Sprintf rest []
      | a :: as => a ++ Sprintf rest as
    else c :: Sprintf (d :: rest) args

/-- The bytes that `connectHttpProxy` writes to the upstream proxy (line 190);
`port` is a `uint16`, which `%v` prints in decimal. -/
def httpProxyRequest (domain : Str) (port : Nat) : Str :=
  Sprintf (bytesOf "CONNECT %v:%v HTTP/1.1\r\nHost: %v:%v\r\n\r\n") [domain, decimal port]

/-- How `connectHttpProxy` returns after a successful dial. -/
inductive HttpProxyResult where
  /-- `return c2, nil` -/
  | connected
  /-- the error of `c2.Read(ch)` -/
  | readError
  /-- `errors.New("http_proxy_failed")` -/
  | failed
deriving DecidableEq, Repr

/-- The loop of lines 193-205 and the test of line 206: `buff` is the slice
`buff`, `conn` the chunks that the upstream still delivers.  A `Read` that
delivers no byte leaves `ch[0]` at 0.  Every round appends a byte and the loop
is left once `len(buff)` exceeds 255; `none` stands for more rounds than
`fuel`. -/
def httpProxyLoop : Nat → Str → List Str → Option HttpProxyResult
  | 0, _, _ => none
  | fuel + 1, buff, conn =>
    if HasSuffix buff (bytesOf "\r\n\r\n") then
      (if at_ buff 9 ≠ 50 then some .failed else some .connected)
    else
      match connRead conn 1 with
      | none => some .readError
      | some (ch, conn1) =>
        let buff1 := buff ++ [at_ ch 0]
        if buff1.length > 255 then some .failed
        else httpProxyLoop fuel buff1 conn1

/-- The reading part of `connectHttpProxy` (lines 191-211) on an upstream that
delivers the chunks `conn`: `c2.Read(buff)` into the 17 bytes of `buff`, its
result not looked at, then the loop. -/
def connectHttpProxy (conn : List Str) : Option HttpProxyResult :=
  let buff := makeBytes 17
  match connRead conn 17 with
  | none => httpProxyLoop 256 buff conn
  | some (c, conn1) => httpProxyLoop 256 (overwrite buff 0 c) conn1

/-! ## Consecutive calls of the Shadowsocks connector -/

/-- Up to `k` consecutive calls of `connectShadowSocks` with the same address
string, each on the globals as the call before left them: the addresses dialed,
in order, and the globals at the end.  A panic ends the run. -/
def ssCalls (cipherOk : Bool) (dial : Str → Bool) (ssaddr domain : Str) (port : Nat) :
    Nat → SSPool → List Str × SSPool
  | 0, st => ([], st)
  | k + 1, st =>
    match connectShadowSocks st cipherOk dial ssaddr domain port with
    | .cipherError st1 => ssCalls cipherOk dial ssaddr domain port k st1
    | .panic st1 => ([], st1)
    | .dialed addr _ _ st1 =>
      let r := ssCalls cipherOk dial ssaddr domain port k st1
      (addr :: r.1, r.2)

/-- The sample configuration after a change of the table: no rules, another
default channel. -/
def changedConfig : ConfigT :=
  { Channel := [], Socks5 := sampleChannel "socks5", Default := sampleChannel "direct" }

/-! ## The channel router -/

/-- `strings.HasSuffix` says that the string ends with the suffix. -/
theorem HasSuffix_iff (s suf : Str) : HasSuffix s suf = true ↔ ∃ p, s = p ++ suf := by
  unfold HasSuffix
  simp only [Bool.and_eq_true, decide_eq_true_eq]
  constructor
  · rintro ⟨_, h⟩
    have key := List.take_append_drop (s.length - suf.length) s
    rw [h] at key
    exact ⟨_, key.symm⟩
  · rintro ⟨p, rfl⟩
    simp

/-- `strings.HasPrefix` says that the string starts with the prefix. -/
theorem HasPrefix_iff (s pre : Str) : HasPrefix s pre = true ↔ ∃ t, s = pre ++ t := by
  unfold HasPrefix
  simp only [Bool.and_eq_true, decide_eq_true_eq]
  constructor
  · rintro ⟨_, h⟩
    have key := List.take_append_drop pre.length s
    rw [h] at key
    exact ⟨_, key.symm⟩
  · rintro ⟨t, rfl⟩
    simp

theorem domainMatch_dot (x d : Str) :
    ∃ b, domainMatch (46 :: x) d = some b ∧ (b = true ↔ (d = x ∨ ∃ p, d = p ++ 46 :: x)) := by
  refine ⟨_, rfl, ?_⟩
  simp only [Bool.or_eq_true, decide_eq_true_eq, HasSuffix_iff]
  constructor
  · rintro (h | h)
    · exact Or.inl h.symm
    · exact Or.inr h
  · rintro (h | h)
    · exact Or.inl h.symm
    · exact Or.inr h

theorem normalizeDomain_dot (raw : Str) : ∃ x, normalizeDomain raw = 46 :: x := by
  unfold normalizeDomain
  split
  · rename_i h
    obtain ⟨t, ht⟩ := (HasPrefix_iff _ _).1 h
    exact ⟨t, by simpa using ht⟩
  · exact ⟨raw, rfl⟩

/-- C1: for a rule domain `.x` the test of line 168 returns (it does not panic),
and it is true exactly when the destination is `x` or ends with `.x`; the loop
of `main` makes every rule domain start with a dot; rule `.example.com` matches
`example.com` and `a.example.com` and not `notexample.com`. -/
theorem C1_domain_match :
    (∀ x d : Str, ∃ b, domainMatch (46 :: x) d = some b ∧
      (b = true ↔ (d = x ∨ ∃ p, d = p ++ 46 :: x))) ∧
    (∀ raw : Str, ∃ x, normalizeDomain raw = 46 :: x) ∧
    normalizeDomain (bytesOf "example.com") = bytesOf ".example.com" ∧
    normalizeDomain (bytesOf ".example.com") = bytesOf ".example.com" ∧
    domainMatch (bytesOf ".example.com") (bytesOf "example.com") = some true ∧
    domainMatch (bytesOf ".example.com") (bytesOf "a.example.com") = some true ∧
    domainMatch (bytesOf ".example.com") (bytesOf "notexample.com") = some false :=
  ⟨domainMatch_dot, normalizeDomain_dot, by decide, by decide, by decide, by decide, by decide⟩

theorem scanDomains_spec (d : Str) (ds : List Str) (hn : ∀ dom ∈ ds, ∃ x, dom = 46 :: x) :
    ∃ b, scanDomains d ds = some b ∧ (b = true ↔ ∃ dom ∈ ds, DomainMatches dom d) := by
  induction ds with
  | nil => exact ⟨false, rfl, by simp⟩
  | cons dom ds ih =>
    obtain ⟨x, rfl⟩ := hn dom (List.mem_cons_self _ _)
    obtain ⟨b, hb, hiff⟩ := domainMatch_dot x d
    obtain ⟨b', hb', hiff'⟩ := ih (fun dom h => hn dom (List.mem_cons_of_mem _ h))
    cases b with
    | true =>
      refine ⟨true, by simp [scanDomains, hb], ?_⟩
      simp only [true_iff]
      exact ⟨_, List.mem_cons_self _ _, x, rfl, hiff.1 rfl⟩
    | false =>
      refine ⟨b', by simp [scanDomains, hb, hb'], ?_⟩
      rw [hiff']
      constructor
      · rintro ⟨dom, hm, h⟩
        exact ⟨dom, List.mem_cons_of_mem _ hm, h⟩
      · rintro ⟨dom, hm, h⟩
        rcases List.mem_cons.1 hm with rfl | hm
        · obtain ⟨y, hy, h⟩ := h
          cases hy
          exact absurd (hiff.2 h) (by simp)
        · exact ⟨dom, hm, h⟩

theorem scanChannels_spec (d : Str) (rules : List ChannelRule)
    (hn : ∀ r ∈ rules, ∀ dom ∈ r.Domains, ∃ x, dom = 46 :: x) :
    (∃ pre r post, rules = pre ++ r :: post ∧ (∀ q ∈ pre, ¬ RuleMatches q d) ∧
        RuleMatches r d ∧ scanChannels d rules = some (some r.ChannelDefine)) ∨
    ((∀ q ∈ rules, ¬ RuleMatches q d) ∧ scanChannels d rules = some none) := by
  induction rules with
  | nil => exact Or.inr ⟨by simp, rfl⟩
  | cons r rules ih =>
    obtain ⟨b, hb, hiff⟩ := scanDomains_spec d r.Domains (hn r (List.mem_cons_self _ _))
    cases b with
    | true =>
      exact Or.inl ⟨[], r, rules, rfl, by simp, hiff.1 rfl, by simp [scanChannels, hb]⟩
    | false =>
      have hr : ¬ RuleMatches r d := fun h => by simpa using hiff.2 h
      rcases ih (fun q h => hn q (List.mem_cons_of_mem _ h)) with
        ⟨pre, q, post, rfl, hpre, hq, hs⟩ | ⟨hall, hs⟩
      · refine Or.inl ⟨r :: pre, q, post, rfl, ?_, hq, by simp [scanChannels, hb, hs]⟩
        intro q' hq'
        rcases List.mem_cons.1 hq' with rfl | h
        · exact hr
        · exact hpre q' h
      · refine Or.inr ⟨?_, by simp [scanChannels, hb, hs]⟩
        intro q' hq'
        rcases List.mem_cons.1 hq' with rfl | h
        · exact hr
        · exact hall q' h

theorem cacheGet_cacheSet (cache : Cache) (d k : Str) (ref : ChannelRef) :
    cacheGet (cacheSet cache d ref) k = if d = k then some ref else cacheGet cache k := by
  simp [cacheSet, cacheGet]

/-- C2: with normalised rule domains and a destination that the cache does not
hold, `getProxyConnect` returns, selecting the channel of the first rule (in
table order) that has a matching domain, and the default channel when no rule
has one; afterwards the cache maps the destination to the selected channel, and
no other key has changed. -/
theorem C2_first_match_wins (cfg : ConfigT) (cache : Cache) (d : Str)
    (hn : Normalized cfg) (hmiss : cacheGet cache d = none) :
    ∃ ch cache1, getProxyConnect cfg cache d = some (ch, cache1) ∧
      (cacheGet cache1 d).map (ChannelRef.deref cfg) = some ch ∧
      (∀ k, k ≠ d → cacheGet cache1 k = cacheGet cache k) ∧
      ((∃ pre r post, cfg.Channel = pre ++ r :: post ∧ (∀ q ∈ pre, ¬ RuleMatches q d) ∧
          RuleMatches r d ∧ ch = r.ChannelDefine) ∨
       ((∀ q ∈ cfg.Channel, ¬ RuleMatches q d) ∧ ch = cfg.Default)) := by
  rcases scanChannels_spec d cfg.Channel hn with ⟨pre, r, post, hsplit, hpre, hr, hs⟩ | ⟨hall, hs⟩
  · refine ⟨r.ChannelDefine, cacheSet cache d (.copy r.ChannelDefine),
      by simp [getProxyConnect, hmiss, hs],
      by simp [cacheGet_cacheSet, ChannelRef.deref], ?_,
      Or.inl ⟨pre, r, post, hsplit, hpre, hr, rfl⟩⟩
    intro k hk
    simp [cacheGet_cacheSet, Ne.symm hk]
  · refine ⟨cfg.Default, cacheSet cache d .configDefault, by simp [getProxyConnect, hmiss, hs],
      by simp [cacheGet_cacheSet, ChannelRef.deref], ?_, Or.inr ⟨hall, rfl⟩⟩
    intro k hk
    simp [cacheGet_cacheSet, Ne.symm hk]

theorem sampleConfig_normalized : Normalized sampleConfig := by
  intro r hr dom hd
  simp only [sampleConfig, List.mem_singleton] at hr
  subst hr
  simp only [List.mem_singleton] at hd
  subst hd
  exact ⟨bytesOf "example.com", by decide⟩

/-- C2 at the sample configuration, an empty cache and `a.example.com`. -/
theorem C2_first_match_wins_witness :
    Normalized sampleConfig ∧ cacheGet [] (bytesOf "a.example.com") = none ∧
    ∃ ch cache1, getProxyConnect sampleConfig [] (bytesOf "a.example.com") = some (ch, cache1) ∧
      (cacheGet cache1 (bytesOf "a.example.com")).map (ChannelRef.deref sampleConfig) = some ch ∧
      (∀ k, k ≠ bytesOf "a.example.com" → cacheGet cache1 k = cacheGet [] k) ∧
      ((∃ pre r post, sampleConfig.Channel = pre ++ r :: post ∧
          (∀ q ∈ pre, ¬ RuleMatches q (bytesOf "a.example.com")) ∧
          RuleMatches r (bytesOf "a.example.com") ∧ ch = r.ChannelDefine) ∨
       ((∀ q ∈ sampleConfig.Channel, ¬ RuleMatches q (bytesOf "a.example.com")) ∧
          ch = sampleConfig.Default)) :=
  ⟨sampleConfig_normalized, rfl,
    C2_first_match_wins sampleConfig [] (bytesOf "a.example.com") sampleConfig_normalized rfl⟩

/-! ## The buffered reader in terms of the byte stream -/

theorem IndexByte_none {s : Str} {c : Nat} (h : IndexByte s c = none) : c ∉ s := by
  induction s with
  | nil => simp
  | cons x t ih =>
    unfold IndexByte at h
    split at h
    · simp at h
    · rename_i hx
      simp only [Option.map_eq_none'] at h
      simp only [List.mem_cons, not_or]
      exact ⟨fun e => hx e.symm, ih h⟩

theorem IndexByte_some {s : Str} {c i : Nat} (h : IndexByte s c = some i) :
    ∃ pre post, s = pre ++ c :: post ∧ c ∉ pre ∧ pre.length = i := by
  induction s generalizing i with
  | nil => simp [IndexByte] at h
  | cons x t ih =>
    unfold IndexByte at h
    split at h
    · rename_i hx
      cases h
      exact ⟨[], t, by simp [hx], by simp, rfl⟩
    · rename_i hx
      simp only [Option.map_eq_some'] at h
      obtain ⟨j, hj, rfl⟩ := h
      obtain ⟨pre, post, h1, h2, h3⟩ := ih hj
      refine ⟨x :: pre, post, by simp [h1], ?_, by simp [h3]⟩
      simp only [List.mem_cons, not_or]
      exact ⟨fun e => hx e.symm, h2⟩

theorem IndexByte_first (pre post : Str) (c : Nat) (h : c ∉ pre) :
    IndexByte (pre ++ c :: post) c = some pre.length := by
  induction pre with
  | nil => simp [IndexByte]
  | cons x t ih =>
    simp only [List.mem_cons, not_or] at h
    simp [IndexByte, Ne.symm h.1, ih h.2]

theorem IndexByte_of_not_mem {s : Str} {c : Nat} (h : c ∉ s) : IndexByte s c = none := by
  induction s with
  | nil => rfl
  | cons x t ih =>
    simp only [List.mem_cons, not_or] at h
    simp [IndexByte, Ne.symm h.1, ih h.2]

theorem take_succ_split (pre post : Str) (c : Nat) :
    (pre ++ c :: post).take (pre.length + 1) = pre ++ [c] ∧
    (pre ++ c :: post).drop (pre.length + 1) = post := by
  constructor
  · rw [List.take_append_eq_append_take]; simp
  · rw [List.drop_append_eq_append_drop]; simp

/-- The three ways `ReadSlice` ends, in terms of the byte stream. -/
theorem readSliceLoop_cases (delim : Nat) (pending : List Str) (buf : Str) :
    (∃ pre, (readSliceLoop delim buf pending).ok = true ∧
        (readSliceLoop delim buf pending).full = false ∧ delim ∉ pre ∧
        (readSliceLoop delim buf pending).line = pre ++ [delim] ∧
        buf ++ pending.flatten = pre ++ delim :: (readSliceLoop delim buf pending).rd.flat) ∨
    ((readSliceLoop delim buf pending).ok = false ∧
        (readSliceLoop delim buf pending).full = true ∧
        delim ∉ (readSliceLoop delim buf pending).line ∧
        bufSize ≤ (readSliceLoop delim buf pending).line.length ∧
        buf ++ pending.flatten =
          (readSliceLoop delim buf pending).line ++ (readSliceLoop delim buf pending).rd.flat ∧
        (readSliceLoop delim buf pending).rd.buf = []) ∨
    ((readSliceLoop delim buf pending).ok = false ∧
        (readSliceLoop delim buf pending).full = false ∧
        delim ∉ buf ++ pending.flatten ∧
        (readSliceLoop delim buf pending).line = buf ++ pending.flatten ∧
        (readSliceLoop delim buf pending).rd.flat = []) := by
  induction pending generalizing buf with
  | nil =>
    simp only [readSliceLoop, List.flatten_nil, List.append_nil]
    cases hi : IndexByte buf delim with
    | some i =>
      obtain ⟨pre, post, rfl, h2, rfl⟩ := IndexByte_some hi
      obtain ⟨ht, hd⟩ := take_succ_split pre post delim
      exact Or.inl ⟨pre, rfl, rfl, h2, ht, by simp [Reader.flat, hd]⟩
    | none =>
      have hn := IndexByte_none hi
      by_cases hf : bufSize ≤ buf.length
      · exact Or.inr (Or.inl (by simp [hf, hn, Reader.flat]))
      · exact Or.inr (Or.inr (by simp [hf, hn, Reader.flat]))
  | cons c cs ih =>
    rw [readSliceLoop]
    cases hi : IndexByte buf delim with
    | some i =>
      obtain ⟨pre, post, rfl, h2, rfl⟩ := IndexByte_some hi
      obtain ⟨ht, hd⟩ := take_succ_split pre post delim
      exact Or.inl ⟨pre, rfl, rfl, h2, ht, by simp [Reader.flat, hd]⟩
    | none =>
      have hn := IndexByte_none hi
      by_cases hf : bufSize ≤ buf.length
      · exact Or.inr (Or.inl (by simp [hf, hn, Reader.flat]))
      · simp only [hf, if_false]
        by_cases hc : c.length ≤ bufSize - buf.length
        · simp only [hc, if_true]
          have := ih (buf ++ c)
          simpa [List.append_assoc] using this
        · simp only [hc, if_false]
          have hsplit : buf ++ (c :: cs).flatten =
              (buf ++ c.take (bufSize - buf.length)) ++
                (c.drop (bufSize - buf.length) ++ cs.flatten) := by
            simp [List.append_assoc]
            rw [← List.append_assoc (List.take _ c), List.take_append_drop]
          have hlen : (buf ++ c.take (bufSize - buf.length)).length = bufSize := by
            simp only [List.length_append, List.length_take]
            omega
          cases hj : IndexByte (buf ++ c.take (bufSize - buf.length)) delim with
          | some j =>
            obtain ⟨pre, post, he, h2, rfl⟩ := IndexByte_some hj
            obtain ⟨ht, hd⟩ := take_succ_split pre post delim
            refine Or.inl ⟨pre, rfl, rfl, h2, ?_, ?_⟩
            · simp only [he, ht]
            · rw [hsplit, he]
              simp [Reader.flat, hd]
          | none =>
            have hn2 := IndexByte_none hj
            refine Or.inr (Or.inl ⟨rfl, rfl, hn2, ?_, ?_, rfl⟩)
            · simp only [hlen]; exact le_refl _
            · rw [hsplit]; simp [Reader.flat]

theorem first_delim_unique {c : Nat} {pre pre1 post post1 : Str}
    (h : pre ++ c :: post = pre1 ++ c :: post1) (hp : c ∉ pre) (hp1 : c ∉ pre1) :
    pre = pre1 ∧ post = post1 := by
  induction pre generalizing pre1 with
  | nil =>
    cases pre1 with
    | nil => simpa using h
    | cons y t =>
      simp only [List.nil_append, List.cons_append, List.cons.injEq] at h
      simp only [List.mem_cons, not_or] at hp1
      exact absurd h.1 hp1.1
  | cons x t ih =>
    cases pre1 with
    | nil =>
      simp only [List.nil_append, List.cons_append, List.cons.injEq] at h
      simp only [List.mem_cons, not_or] at hp
      exact absurd h.1.symm hp.1
    | cons y t1 =>
      simp only [List.cons_append, List.cons.injEq] at h
      simp only [List.mem_cons, not_or] at hp hp1
      obtain ⟨h1, h2⟩ := ih h.2 hp.2 hp1.2
      exact ⟨by rw [h.1, h1], h2⟩

/-- A byte of the stream before the first `delim` cannot lie beyond a prefix
that is free of `delim`. -/
theorem free_head_le {c : Nat} {pre post line rest : Str}
    (h : pre ++ c :: post = line ++ rest) (hl : c ∉ line) : line.length ≤ pre.length := by
  by_contra hlt
  push_neg at hlt
  have h1 : (pre ++ c :: post)[pre.length]? = some c := by
    rw [List.getElem?_append_right (le_refl _)]; simp
  rw [h, List.getElem?_append_left hlt] at h1
  exact hl (List.getElem?_mem h1)

theorem free_head_split {c : Nat} {pre post line rest : Str}
    (h : pre ++ c :: post = line ++ rest) (hl : c ∉ line) :
    ∃ m, pre = line ++ m ∧ rest = m ++ c :: post := by
  have hle := free_head_le h hl
  refine ⟨pre.drop line.length, ?_, ?_⟩
  · have := congrArg (List.take line.length) h
    rw [List.take_append_of_le_length hle, List.take_left'] at this
    · conv_lhs => rw [← List.take_append_drop line.length pre, this]
    · rfl
  · have := congrArg (List.drop line.length) h
    rw [List.drop_append_of_le_length hle, List.drop_left'] at this
    · exact this.symm
    · rfl


/-- `ReadSlice` finds a delimiter that comes within the first `bufSize` bytes
of the stream. -/
theorem readSliceLoop_found (delim : Nat) (pending : List Str) (buf pre post : Str)
    (h : buf ++ pending.flatten = pre ++ delim :: post) (hp : delim ∉ pre)
    (hlen : pre.length < bufSize) :
    (readSliceLoop delim buf pending).ok = true ∧
    (readSliceLoop delim buf pending).line = pre ++ [delim] ∧
    (readSliceLoop delim buf pending).rd.flat = post := by
  rcases readSliceLoop_cases delim pending buf with
    ⟨pre1, hok, _, hp1, hline, hs⟩ | ⟨_, _, hfree, hl, hs, _⟩ | ⟨_, _, hfree, _, _⟩
  · rw [h] at hs
    obtain ⟨e1, e2⟩ := first_delim_unique hs hp hp1
    exact ⟨hok, by rw [hline, e1], e2.symm⟩
  · rw [h] at hs
    have := free_head_le hs hfree
    omega
  · rw [h] at hfree
    exact absurd (by simp) hfree

/-- When `ReadSlice` succeeds, it has read up to the first delimiter. -/
theorem readSliceLoop_ok (delim : Nat) (pending : List Str) (buf pre post : Str)
    (h : buf ++ pending.flatten = pre ++ delim :: post) (hp : delim ∉ pre)
    (hok : (readSliceLoop delim buf pending).ok = true) :
    (readSliceLoop delim buf pending).line = pre ++ [delim] ∧
    (readSliceLoop delim buf pending).rd.flat = post := by
  rcases readSliceLoop_cases delim pending buf with
    ⟨pre1, _, _, hp1, hline, hs⟩ | ⟨hno, _⟩ | ⟨hno, _⟩
  · rw [h] at hs
    obtain ⟨e1, e2⟩ := first_delim_unique hs hp hp1
    exact ⟨by rw [hline, e1], e2.symm⟩
  · rw [hok] at hno; cases hno
  · rw [hok] at hno; cases hno

/-- `ReadSlice` never returns more than a buffer, and leaves at most a buffer. -/
theorem readSliceLoop_bound (delim : Nat) (pending : List Str) (buf : Str)
    (hb : buf.length ≤ bufSize) :
    (readSliceLoop delim buf pending).line.length ≤ bufSize ∧
    (readSliceLoop delim buf pending).rd.buf.length ≤ bufSize := by
  induction pending generalizing buf with
  | nil =>
    simp only [readSliceLoop]
    cases IndexByte buf delim with
    | some i => dsimp only; simp only [List.length_take, List.length_drop]; omega
    | none =>
      dsimp only
      by_cases hf : bufSize ≤ buf.length
      · simp [hf, hb]
      · simp [hf, hb]
  | cons c cs ih =>
    rw [readSliceLoop]
    cases IndexByte buf delim with
    | some i => dsimp only; simp only [List.length_take, List.length_drop]; omega
    | none =>
      dsimp only
      by_cases hf : bufSize ≤ buf.length
      · simp [hf, hb]
      · simp only [hf, if_false]
        by_cases hc : c.length ≤ bufSize - buf.length
        · simp only [hc, if_true]
          exact ih (buf ++ c) (by simp only [List.length_append]; omega)
        · simp only [hc, if_false]
          have hlen : (buf ++ c.take (bufSize - buf.length)).length = bufSize := by
            simp only [List.length_append, List.length_take]
            omega
          cases IndexByte (buf ++ c.take (bufSize - buf.length)) delim with
          | some j => dsimp only; simp only [List.length_take, List.length_drop, hlen]; omega
          | none => dsimp only; simp only [hlen, List.length_nil]; omega

/-- `Peek` does not change what the reader will hand out. -/
theorem peekFill_flat (n : Nat) (pending : List Str) (buf : Str) :
    (peekFill n buf pending).flat = buf ++ pending.flatten := by
  induction pending generalizing buf with
  | nil => simp [peekFill, Reader.flat]
  | cons c cs ih =>
    rw [peekFill]
    split
    · split
      · rw [ih]; simp
      · simp only [Reader.flat, List.flatten_cons, List.append_assoc]
        rw [← List.append_assoc (List.take _ c), List.take_append_drop]
    · simp [Reader.flat]

/-- `Peek(n)` buffers `n` bytes when the stream has that many. -/
theorem peekFill_enough (n : Nat) (pending : List Str) (buf : Str)
    (h : n ≤ (buf ++ pending.flatten).length) (hn : n ≤ bufSize) :
    n ≤ (peekFill n buf pending).buf.length := by
  induction pending generalizing buf with
  | nil => simpa [peekFill] using h
  | cons c cs ih =>
    rw [peekFill]
    split
    · split
      · exact ih (buf ++ c) (by simpa using h)
      · simp only [List.length_append, List.length_take]
        omega
    · rename_i hcond
      simp only [not_and_or, not_lt] at hcond
      rcases hcond with h1 | h1
      · exact h1
      · exact le_trans hn h1

/-- `Peek` keeps the buffer within its size. -/
theorem peekFill_bound (n : Nat) (pending : List Str) (buf : Str)
    (hb : buf.length ≤ bufSize) : (peekFill n buf pending).buf.length ≤ bufSize := by
  induction pending generalizing buf with
  | nil => simpa [peekFill] using hb
  | cons c cs ih =>
    rw [peekFill]
    split
    · split
      · exact ih (buf ++ c) (by simp only [List.length_append]; omega)
      · simp only [List.length_append, List.length_take]
        omega
    · exact hb

/-- `Peek(n)` on a stream of at least `n` bytes returns its first `n` bytes. -/
theorem Peek_some (b : Reader) (n : Nat) (h : n ≤ b.flat.length) (hn : n ≤ bufSize) :
    b.Peek n = (some (b.flat.take n), peekFill n b.buf b.pending) := by
  have h1 := peekFill_enough n b.pending b.buf h hn
  have h2 := peekFill_flat n b.pending b.buf
  unfold Reader.Peek
  simp only [h1, if_true]
  congr 2
  have : b.flat = (peekFill n b.buf b.pending).flat := by rw [h2]; rfl
  rw [this, Reader.flat, List.take_append_of_le_length h1]

/-- `ReadBytes` returns the stream up to and including the first delimiter,
however long that is. -/
theorem readBytesLoop_found (delim : Nat) (fuel : Nat) :
    ∀ (acc : Str) (rd : Reader) (line more : Str),
      rd.flat = line ++ delim :: more → delim ∉ line → rd.flat.length < fuel →
      ∃ rd1, readBytesLoop delim fuel acc rd = (acc ++ (line ++ [delim]), true, rd1) ∧
        rd1.flat = more := by
  induction fuel with
  | zero => intro acc rd line more _ _ hf; omega
  | succ fuel ih =>
    intro acc rd line more hs hfree hf
    rw [readBytesLoop]
    unfold Reader.ReadSlice
    have hs1 : rd.buf ++ rd.pending.flatten = line ++ delim :: more := hs
    rcases readSliceLoop_cases delim rd.pending rd.buf with
      ⟨pre1, hok, hfull, hp1, hline, hs2⟩ | ⟨_, hfull, hfree1, hl, hs2, _⟩ |
      ⟨_, _, hfree1, _, _⟩
    · rw [hs1] at hs2
      obtain ⟨e1, e2⟩ := first_delim_unique hs2 hfree hp1
      simp only [hfull, Bool.false_eq_true, if_false, hline, hok]
      exact ⟨_, by rw [e1], e2.symm⟩
    · rw [hs1] at hs2
      obtain ⟨m, hm1, hm2⟩ := free_head_split hs2 hfree1
      simp only [hfull, if_true]
      have hfm : delim ∉ m := fun hmem => hfree (by rw [hm1]; exact List.mem_append_right _ hmem)
      have hlt : (readSliceLoop delim rd.buf rd.pending).rd.flat.length < fuel := by
        have := congrArg List.length hs2
        have h3 : rd.flat.length = (line ++ delim :: more).length := by rw [hs]
        simp only [List.length_append, List.length_cons] at this h3
        have h4 : 0 < bufSize := by decide
        omega
      obtain ⟨rd1, hr, hflat⟩ := ih (acc ++ (readSliceLoop delim rd.buf rd.pending).line)
        (readSliceLoop delim rd.buf rd.pending).rd m more hm2 hfm hlt
      refine ⟨rd1, ?_, hflat⟩
      rw [hr, hm1]
      simp [List.append_assoc]
    · rw [hs1] at hfree1
      exact absurd (by simp) hfree1

/-- `ReadBytes('\n')` on a stream that holds a line. -/
theorem ReadBytes_found (delim : Nat) (rd : Reader) (line more : Str)
    (hs : rd.flat = line ++ delim :: more) (hfree : delim ∉ line) :
    ∃ rd1, rd.ReadBytes delim = (line ++ [delim], true, rd1) ∧ rd1.flat = more := by
  obtain ⟨rd1, h1, h2⟩ := readBytesLoop_found delim (rd.flat.length + 1) [] rd line more hs hfree
    (Nat.lt_succ_self _)
  exact ⟨rd1, by simpa [Reader.ReadBytes] using h1, h2⟩

/-! ## The SOCKS5 branch -/

/-- Without the methods 0x00 and 0x81 on offer the loop of line 402 leaves
`method` at 0xff. -/
theorem selectMethod_none (ms : Str) (h0 : 0 ∉ ms) (h81 : 0x81 ∉ ms) :
    selectMethod 0xff ms = 0xff := by
  induction ms with
  | nil => rfl
  | cons m t ih =>
    simp only [List.mem_cons, not_or] at h0 h81
    rw [selectMethod]
    simp only [Ne.symm h0.1, Ne.symm h81.1, if_false]
    exact ih h0.2 h81.2

/-- The bytes of `CON`. -/
theorem bytesOf_CON : bytesOf "CON" = [67, 79, 78] := by decide

/-- `Read` at the end of the stream. -/
theorem Read_eof (m : Nat) :
    ({ buf := [], pending := [] } : Reader).Read m =
      { data := [], eof := true, refill := none, rd := { buf := [], pending := [] } } := by
  unfold Reader.Read
  simp [connRead]

/-- `Peek(n)` on a fresh reader whose first chunk has at least `n` bytes
buffers that chunk. -/
theorem peekFill_first (n : Nat) (g : Str) (rest : List Str) (hn : 0 < n)
    (hng : n ≤ g.length) (hg : g.length ≤ bufSize) :
    peekFill n [] (g :: rest) = { buf := g, pending := rest } := by
  have h0 : 0 < bufSize := by decide
  rw [peekFill]
  simp only [List.length_nil, hn, h0, and_self, if_true, Nat.sub_zero, hg, List.nil_append]
  cases rest with
  | nil => rfl
  | cons c cs =>
    rw [peekFill]
    simp only [Nat.not_lt.2 hng, false_and, if_false]

/-- The dispatch of `doProxy` on a first chunk that starts with the byte 5. -/
theorem doProxy_socks5 (cfg : ConfigT) (cache : Cache) (w : World) (k m1 : Nat) (t : Str)
    (rest : List Str) (hg : (5 :: k :: m1 :: t).length ≤ bufSize) :
    doProxy cfg cache w ((5 :: k :: m1 :: t) :: rest) =
      doSocks5 cfg cache w [5, k, m1] { buf := 5 :: k :: m1 :: t, pending := rest } := by
  unfold doProxy
  simp only [Reader.Peek, peekFill_first 3 _ rest (by decide) (by simp) hg]
  simp only [List.length_cons, show 3 ≤ t.length + 1 + 1 + 1 from by omega, if_true, List.take]
  have h1 : ([5, k, m1] : Str) ≠ bytesOf "CON" := by
    rw [bytesOf_CON]
    simp
  simp [h1, at_]

/-- `io.ReadAtLeast` when the buffer holds enough: it takes what is buffered,
in one `Read`. -/
theorem ReadAtLeast_buffered (g temp view : Str) (rest : List Str) (min : Nat)
    (hg : g ≠ []) (hgt : g.length ≤ temp.length) (h0 : 0 < min) (hmin : min ≤ g.length) :
    ReadAtLeast { buf := g, pending := rest } temp min view =
      { ok := true, temp := overwrite temp 0 g, n := g.length, view := view,
        rd := { buf := [], pending := rest } } := by
  unfold ReadAtLeast
  simp only [show ¬ temp.length < min from by omega, if_false]
  rw [readAtLeastLoop]
  simp only [h0, if_true, Reader.Read, hg, if_false, Nat.sub_zero, Nat.zero_add,
    List.take_of_length_le hgt, List.drop_of_length_le hgt, Bool.false_eq_true]
  rw [readAtLeastLoop]
  simp only [show ¬ g.length < min from by omega, if_false]

/-- `io.ReadAtLeast` when the buffer holds too little and the stream has
ended. -/
theorem ReadAtLeast_short (g temp view : Str) (min : Nat)
    (hg : g ≠ []) (hgt : g.length < temp.length) (hmin : g.length < min) :
    (ReadAtLeast { buf := g, pending := [] } temp min view).ok = false := by
  unfold ReadAtLeast
  split
  · rfl
  · rename_i hlen
    rw [readAtLeastLoop]
    have h0 : 0 < min := by omega
    simp only [h0, if_true, Reader.Read, hg, if_false, Nat.sub_zero, Nat.zero_add,
      List.take_of_length_le (le_of_lt hgt), List.drop_of_length_le (le_of_lt hgt),
      Bool.false_eq_true]
    rw [readAtLeastLoop]
    simp [hmin, Read_eof]

/-- `copy` does not change the length of its destination. -/
theorem overwrite_zero_length (temp g : Str) (h : g.length ≤ temp.length) :
    (overwrite temp 0 g).length = temp.length := by
  simp only [overwrite, List.take_zero, List.nil_append, List.length_append, List.length_drop]
  omega

/-- `len(make([]byte, n)) == n`. -/
theorem makeBytes_length (n : Nat) : (makeBytes n).length = n := by
  simp [makeBytes]

/-- The methods that the loop of line 402 ranges over, when the greeting was
read in one piece. -/
theorem goSlice_methods (a b k : Nat) (ms temp : Str) (hk : k = ms.length + 2)
    (h : (a :: b :: ms).length ≤ temp.length) :
    goSlice (overwrite temp 0 (a :: b :: ms)) 2 k = some ms := by
  have hl := overwrite_zero_length temp (a :: b :: ms) h
  simp only [List.length_cons] at h
  subst hk
  unfold goSlice
  rw [hl]
  simp only [show 2 ≤ ms.length + 2 ∧ ms.length + 2 ≤ temp.length from ⟨by omega, by omega⟩,
    if_true]
  simp [overwrite, List.take_append_eq_append_take]

/-- The SOCKS5 branch returns without a word when the greeting cannot be
read. -/
theorem doSocks5_read_fail (cfg : ConfigT) (cache : Cache) (w : World) (buff : Str)
    (rd : Reader) (h : (ReadAtLeast rd (makeBytes 355) (2 + at_ buff 2) buff).ok = false) :
    doSocks5 cfg cache w buff rd =
      Outcome.quiet .closed cache (ReadAtLeast rd (makeBytes 355) (2 + at_ buff 2) buff).rd := by
  unfold doSocks5
  dsimp only
  rw [h]
  rfl

/-- From the value 0 the loop of line 402 ends with 0x81 when that method is on
offer, and with 0 otherwise. -/
theorem selectMethod_zero (ms : Str) :
    selectMethod 0 ms = if 0x81 ∈ ms then 0x81 else 0 := by
  induction ms with
  | nil => rfl
  | cons m t ih =>
    rw [selectMethod]
    by_cases h0 : m = 0
    · subst h0
      simp [ih]
    · by_cases h81 : m = 0x81
      · subst h81
        simp
      · have : ¬ (129 = m) := fun e => h81 e.symm
        simp [h0, h81, this, ih]

/-- The selection loop of lines 401-411 by itself prefers 0x81 to 0x00,
whatever the order of the offered methods. -/
theorem selectMethod_spec (ms : Str) :
    selectMethod 0xff ms = if 0x81 ∈ ms then 0x81 else if 0 ∈ ms then 0 else 0xff := by
  induction ms with
  | nil => rfl
  | cons m t ih =>
    rw [selectMethod]
    by_cases h0 : m = 0
    · subst h0
      simp [selectMethod_zero]
    · by_cases h81 : m = 0x81
      · subst h81
        simp
      · have h1 : ¬ (129 = m) := fun e => h81 e.symm
        have h2 : ¬ (0 = m) := fun e => h0 e.symm
        simp [h0, h81, h1, h2, ih]

set_option maxRecDepth 100000 in
/-- C3 (the code at the failing input): a connect request with a domain of 251
bytes, read in one piece after the greeting `05 01 00`, makes the handler panic
on `temp[5:end]`, `end` having wrapped to 0; with 250 bytes the port `01 BB`
(443) is decoded as 261, the low byte being read from `temp[0]`; with 249 bytes
the domain and the port 443 are decoded as sent. -/
theorem C3_domain_length_wraps :
    (doProxy sampleConfig [] World.good
      [[5, 1, 0], [5, 1, 0, 3, 251] ++ List.replicate 251 97 ++ [1, 187]]).status
        = .panicked ∧
    (doProxy sampleConfig [] World.good
      [[5, 1, 0], [5, 1, 0, 3, 251] ++ List.replicate 251 97 ++ [1, 187]]).dials = [] ∧
    (doProxy sampleConfig [] World.good
      [[5, 1, 0], [5, 1, 0, 3, 250] ++ List.replicate 250 97 ++ [1, 187]]).dials
        = [{ channel := sampleConfig.Socks5, domain := List.replicate 250 97, port := 261 }] ∧
    (doProxy sampleConfig [] World.good
      [[5, 1, 0], [5, 1, 0, 3, 249] ++ List.replicate 249 97 ++ [1, 187]]).dials
        = [{ channel := sampleConfig.Socks5, domain := List.replicate 249 97, port := 443 }] := by
  refine ⟨?_, ?_, ?_, ?_⟩ <;> decide

set_option maxRecDepth 100000 in
/-- C4 (the code at the failing input): a greeting with 254 or 255 offered
methods, read in one piece, makes the handler panic on `temp[2 : buff[1]+2]`,
the bound having wrapped to 0 or 1, before any method is selected or written;
the greetings `05 02 00 81` and `05 01 00` get the replies `05 81` and
`05 00`. -/
theorem C4_method_count_wraps :
    (doProxy sampleConfig [] World.good [[5, 254] ++ List.replicate 254 0]).status
      = .panicked ∧
    (doProxy sampleConfig [] World.good [[5, 254] ++ List.replicate 254 0]).toClient = [] ∧
    (doProxy sampleConfig [] World.good [[5, 255] ++ List.replicate 255 0]).status
      = .panicked ∧
    (doProxy sampleConfig [] World.good [[5, 255] ++ List.replicate 255 0]).toClient = [] ∧
    (doProxy sampleConfig [] World.good [[5, 2, 0, 0x81]]).toClient = [5, 0x81] ∧
    (doProxy sampleConfig [] World.good [[5, 1, 0]]).toClient = [5, 0] := by
  refine ⟨?_, ?_, ?_, ?_, ?_, ?_⟩ <;> decide

/-- The methods that the loop of line 402 ranges over, when the greeting was
read in one piece together with the bytes `extra` that followed it. -/
theorem goSlice_methods_extra (a b : Nat) (ms extra temp : Str)
    (h : (a :: b :: (ms ++ extra)).length ≤ temp.length) :
    goSlice (overwrite temp 0 (a :: b :: (ms ++ extra))) 2 (ms.length + 2) = some ms := by
  have hl := overwrite_zero_length temp (a :: b :: (ms ++ extra)) h
  simp only [List.length_cons, List.length_append] at h
  unfold goSlice
  rw [hl]
  simp only [show 2 ≤ ms.length + 2 ∧ ms.length + 2 ≤ temp.length from ⟨by omega, by omega⟩,
    if_true]
  simp [overwrite, List.take_append_eq_append_take]

set_option maxRecDepth 100000 in
/-- C5 (counterexample): the greeting `05 02 01 02` offers the methods 0x01
and 0x02 and neither 0x00 nor 0x81.  The handler's read of the greeting
returns without error, the loop of line 402 leaves `method` at 0xff, and the
handler returns from lines 412-415 having written nothing to the client, not
the two bytes `05 FF`; the same for the greeting `05 01 01`. -/
theorem C5_counterexample :
    (ReadAtLeast { buf := [5, 2, 1, 2], pending := [] } (makeBytes 355)
      (2 + at_ [5, 2, 1] 2) [5, 2, 1]).ok = true ∧
    selectMethod 0xff [1, 2] = 0xff ∧
    (doProxy sampleConfig [] World.good [[5, 2, 1, 2]]).toClient = [] ∧
    (doProxy sampleConfig [] World.good [[5, 2, 1, 2]]).toClient ≠ [5, 0xff] ∧
    (doProxy sampleConfig [] World.good [[5, 2, 1, 2]]).status = .closed ∧
    (doProxy sampleConfig [] World.good [[5, 1, 1]]).toClient = [] := by
  refine ⟨?_, ?_, ?_, ?_, ?_, ?_⟩ <;> decide

/-- C5 (amended): a greeting `05 k m_1..m_k` that offers neither method 0x00
nor method 0x81 and that the handler has read completely (it arrives in one
piece, with the bytes `extra` behind it if any, and this piece holds the bytes
that the read of line 396 asks for, so that the read returns with it whatever
the client does next) makes the handler write nothing to the client and call no
connector; the handler does not go on to relay: it returns from lines 412-415,
or with more than 253 methods it panics on the slice of line 402, and in both
cases the deferred `c.Close()` closes the connection. -/
theorem C5_no_acceptable_method (cfg : ConfigT) (cache : Cache) (w : World) (ms extra : Str)
    (rest : List Str) (hne : ms ≠ []) (hlen : ms.length ≤ 255) (h0 : 0 ∉ ms) (h81 : 0x81 ∉ ms)
    (hfit : (5 :: ms.length :: (ms ++ extra)).length ≤ 355)
    (hread : 2 + ms.headD 0 ≤ (5 :: ms.length :: (ms ++ extra)).length) :
    (doProxy cfg cache w ((5 :: ms.length :: (ms ++ extra)) :: rest)).toClient = [] ∧
    (doProxy cfg cache w ((5 :: ms.length :: (ms ++ extra)) :: rest)).dials = [] ∧
    ((doProxy cfg cache w ((5 :: ms.length :: (ms ++ extra)) :: rest)).status = .closed ∨
      (253 < ms.length ∧
        (doProxy cfg cache w ((5 :: ms.length :: (ms ++ extra)) :: rest)).status = .panicked)) ∧
    (doProxy cfg cache w ((5 :: ms.length :: (ms ++ extra)) :: rest)).rd
      = { buf := [], pending := rest } := by
  cases ms with
  | nil => exact absurd rfl hne
  | cons m1 t =>
    generalize hk : (m1 :: t).length = k at hlen hfit hread ⊢
    have hkt : k = t.length + 1 := by simpa using hk.symm
    simp only [List.cons_append, List.headD_cons] at hfit hread ⊢
    have hg : (5 :: k :: m1 :: (t ++ extra)).length ≤ bufSize := by
      simp only [bufSize]; omega
    have htl : (5 :: k :: m1 :: (t ++ extra)).length ≤ (makeBytes 355).length := by
      rw [makeBytes_length]; exact hfit
    rw [doProxy_socks5 cfg cache w k m1 (t ++ extra) rest hg]
    have hat1 : at_ [5, k, m1] 1 = k := rfl
    have hr := ReadAtLeast_buffered (5 :: k :: m1 :: (t ++ extra)) (makeBytes 355)
      [5, k, m1] rest (2 + at_ [5, k, m1] 2) (by simp) htl
      (by simp [at_]) (by simpa [at_] using hread)
    rw [doSocks5]
    simp only [hr, Bool.not_true, Bool.false_eq_true, if_false, hat1]
    by_cases hk253 : k ≤ 253
    · have hsl := goSlice_methods_extra 5 k (m1 :: t) extra (makeBytes 355) htl
      rw [hk, ← Nat.mod_eq_of_lt (show k + 2 < 256 by omega), List.cons_append] at hsl
      simp only [hsl, selectMethod_none _ h0 h81, if_true, Outcome.quiet]
      simp
    · have hbad : goSlice (overwrite (makeBytes 355) 0 (5 :: k :: m1 :: (t ++ extra))) 2
          ((k + 2) % 256) = none := by
        unfold goSlice
        have : (k + 2) % 256 < 2 := by omega
        rw [if_neg (fun h => by omega)]
      simp only [hbad, Outcome.quiet]
      simp
      omega

/-- C5 (amended) at the greeting `05 02 01 02`, the client sending nothing
behind it, and at `05 01 02` with one more byte behind it. -/
theorem C5_no_acceptable_method_witness :
    ([1, 2] : Str) ≠ [] ∧ 0 ∉ ([1, 2] : Str) ∧ 0x81 ∉ ([1, 2] : Str) ∧
    (doProxy sampleConfig [] World.good [[5, 2, 1, 2]]).toClient = [] ∧
    (doProxy sampleConfig [] World.good [[5, 2, 1, 2]]).dials = [] ∧
    (doProxy sampleConfig [] World.good [[5, 1, 2, 9]]).toClient = [] :=
  ⟨by decide, by decide, by decide,
    (C5_no_acceptable_method sampleConfig [] World.good [1, 2] [] [] (by decide) (by decide)
      (by decide) (by decide) (by decide) (by decide)).1,
    (C5_no_acceptable_method sampleConfig [] World.good [1, 2] [] [] (by decide) (by decide)
      (by decide) (by decide) (by decide) (by decide)).2.1,
    (C5_no_acceptable_method sampleConfig [] World.good [2] [9] [] (by decide) (by decide)
      (by decide) (by decide) (by decide) (by decide)).1⟩

set_option maxRecDepth 100000 in
/-- C6 (the code at the failing input): the request that `connectSocks5` sends
for a domain of 250 bytes and port 443 is decoded by the handler with port 261,
under method 0x00 and under method 0x81; for a domain of 255 bytes the handler
panics; for a domain of 249 bytes the domain and the port come back. -/
theorem C6_round_trip_breaks_at_250 :
    (doProxy sampleConfig [] World.good
      [[5, 1, 0], socks5Request 0 (List.replicate 250 97) 443]).dials
        = [{ channel := sampleConfig.Socks5, domain := List.replicate 250 97, port := 261 }] ∧
    (doProxy sampleConfig [] World.good
      [[5, 2, 0, 0x81], socks5Request 0x81 (List.replicate 250 97) 443]).dials
        = [{ channel := sampleConfig.Default, domain := List.replicate 250 97, port := 261 }] ∧
    (doProxy sampleConfig [] World.good
      [[5, 2, 0, 0x81], socks5Request 0x81 (List.replicate 255 97) 443]).status
        = .panicked ∧
    (doProxy sampleConfig [] World.good
      [[5, 2, 0, 0x81], socks5Request 0x81 (List.replicate 249 97) 443]).dials
        = [{ channel := sampleConfig.Default, domain := List.replicate 249 97, port := 443 }] := by
  refine ⟨?_, ?_, ?_, ?_⟩ <;> decide

/-! ### Where the SOCKS5 branch decodes as intended -/


/-- `s[i]` as an optional element. -/
theorem at_eq (s : Str) (i : Nat) : at_ s i = (s[i]?).getD 0 := by
  simp [at_, List.getD_eq_getElem?_getD]

/-- Reading inside the bytes that `copy` has just written. -/
theorem at_overwrite_zero (temp g : Str) (i : Nat) (hi : i < g.length) :
    at_ (overwrite temp 0 g) i = at_ g i := by
  simp only [at_eq, overwrite, List.take_zero, List.nil_append]
  rw [List.getElem?_append_left hi]

/-- Reading past the bytes that `copy` has written. -/
theorem at_overwrite_after (temp g : Str) (off i : Nat) (h : off + g.length ≤ i)
    (hoff : off ≤ temp.length) :
    at_ (overwrite temp off g) i = at_ temp i := by
  simp only [at_eq, overwrite]
  have h1 : (temp.take off ++ g).length = off + g.length := by
    simp only [List.length_append, List.length_take]; omega
  rw [List.getElem?_append_right (by omega), h1, List.getElem?_drop]
  congr 2
  omega

/-- The domain bytes of a request that sits at the start of `temp`. -/
theorem goSlice_domain (temp : Str) (a b c d e : Nat) (body tail : Str)
    (hlen : (a :: b :: c :: d :: e :: (body ++ tail)).length ≤ temp.length) :
    goSlice (overwrite temp 0 (a :: b :: c :: d :: e :: (body ++ tail))) 5 (body.length + 5)
      = some body := by
  have hl := overwrite_zero_length temp _ hlen
  simp only [List.length_cons, List.length_append] at hlen
  unfold goSlice
  rw [hl, if_pos ⟨by omega, by omega⟩]
  simp [overwrite, List.take_append_eq_append_take]

/-- The port bytes of a request, which follow the domain. -/
theorem at_request_port (a b c d e hi lo : Nat) (body : Str) :
    at_ (a :: b :: c :: d :: e :: (body ++ [hi, lo])) (body.length + 5) = hi ∧
    at_ (a :: b :: c :: d :: e :: (body ++ [hi, lo])) (body.length + 6) = lo ∧
    at_ (a :: b :: c :: d :: e :: (body ++ [hi, lo])) 4 = e := by
  refine ⟨?_, ?_, rfl⟩
  · simp only [at_eq, List.getElem?_cons_succ]
    rw [List.getElem?_append_right (le_refl _)]
    simp
  · simp only [at_eq, show body.length + 6 = body.length + 1 + 5 from rfl,
      List.getElem?_cons_succ]
    rw [List.getElem?_append_right (by omega)]
    simp

set_option maxRecDepth 4000 in
/-- The `case 3` of lines 447-461 on a request with a domain of at most 249
bytes that arrives in one piece, when the byte that `temp[4]` holds from the
greeting does not exceed the domain length: the domain bytes (complemented
under method 0x81) and the port come out as sent. -/
theorem readRequest_domain (w : World) (method : Nat) (temp body : Str) (hi lo : Nat)
    (rest : List Str) (htemp : temp.length = 355) (hL : body.length ≤ 249)
    (hstale : at_ temp 4 ≤ body.length) :
    readRequest w method 3 temp
        { buf := 5 :: 1 :: 0 :: 3 :: body.length :: (body ++ [hi, lo]), pending := rest } =
      .parsed
        (if method = 0x81 then
          overwrite (overwrite temp 0 (5 :: 1 :: 0 :: 3 :: body.length :: (body ++ [hi, lo]))) 5
            (body.map complement)
         else overwrite temp 0 (5 :: 1 :: 0 :: 3 :: body.length :: (body ++ [hi, lo])))
        (body.length + 7)
        (if method = 0x81 then body.map complement else body)
        ((hi * 256 % 65536 + lo) % 65536)
        { buf := [], pending := rest } := by
  have hreq : (5 :: 1 :: 0 :: 3 :: body.length :: (body ++ [hi, lo])).length
      = body.length + 7 := by simp
  have hfit : (5 :: 1 :: 0 :: 3 :: body.length :: (body ++ [hi, lo])).length ≤ temp.length := by
    rw [hreq, htemp]; omega
  have hr := ReadAtLeast_buffered (5 :: 1 :: 0 :: 3 :: body.length :: (body ++ [hi, lo])) temp
    [] rest (6 + at_ temp 4 + 1) (by simp) hfit (by omega) (by rw [hreq]; omega)
  obtain ⟨phi, plo, p4⟩ := at_request_port 5 1 0 3 body.length hi lo body
  have h4 : at_ (overwrite temp 0 (5 :: 1 :: 0 :: 3 :: body.length :: (body ++ [hi, lo]))) 4
      = body.length := by
    rw [at_overwrite_zero _ _ 4 (by rw [hreq]; omega), p4]
  have hend : (body.length + 5) % 256 = body.length + 5 := Nat.mod_eq_of_lt (by omega)
  have hend1 : (body.length + 5 + 1) % 256 = body.length + 6 := Nat.mod_eq_of_lt (by omega)
  have hsl := goSlice_domain temp 5 1 0 3 body.length body [hi, lo] hfit
  have hl0 := overwrite_zero_length temp _ hfit
  unfold readRequest
  simp only [show ¬ ((3 : Nat) = 1 ∨ (3 : Nat) = 4) from by decide, if_false, if_true, hr,
    Bool.not_true, Bool.false_eq_true, h4, hend, hend1, hsl, hreq]
  by_cases hm : method = 0x81
  · simp only [hm, if_true]
    rw [at_overwrite_after _ _ 5 (body.length + 5) (by simp only [List.length_map]; omega)
        (by rw [hl0, htemp]; omega),
      at_overwrite_after _ _ 5 (body.length + 6) (by simp only [List.length_map]; omega)
        (by rw [hl0, htemp]; omega),
      at_overwrite_zero _ _ _ (by rw [hreq]; omega),
      at_overwrite_zero _ _ _ (by rw [hreq]; omega), phi, plo]
  · simp only [hm, if_false]
    rw [at_overwrite_zero _ _ _ (by rw [hreq]; omega),
      at_overwrite_zero _ _ _ (by rw [hreq]; omega), phi, plo]

set_option maxRecDepth 4000 in
/-- The handler from the connect request on (lines 421-467), for a domain
request of at most 249 domain bytes that arrives in one piece: one call of the
connector, with the domain and the port as sent. -/
theorem socks5Connect_domain (cfg : ConfigT) (cache : Cache) (w : World) (method : Nat)
    (temp body : Str) (hi lo : Nat) (rest : List Str) (ch : ChannelDefine) (cache1 : Cache)
    (htemp : temp.length = 355) (hL : body.length ≤ 249) (hstale : at_ temp 4 ≤ body.length)
    (hroute : (if method = 0 then some (cfg.Socks5, cache)
      else getProxyConnect cfg cache (if method = 0x81 then body.map complement else body))
        = some (ch, cache1)) :
    (socks5Connect cfg cache w method temp
      { buf := [], pending := (5 :: 1 :: 0 :: 3 :: body.length :: (body ++ [hi, lo])) :: rest }).dials
      = [{ channel := ch, domain := if method = 0x81 then body.map complement else body,
           port := (hi * 256 % 65536 + lo) % 65536 }] := by
  have hreq : (5 :: 1 :: 0 :: 3 :: body.length :: (body ++ [hi, lo])).length
      = body.length + 7 := by simp
  have hpk := peekFill_first 5 (5 :: 1 :: 0 :: 3 :: body.length :: (body ++ [hi, lo])) rest
    (by decide) (by rw [hreq]; omega) (by rw [hreq]; simp only [bufSize]; omega)
  have hrr := readRequest_domain w method temp body hi lo rest htemp hL hstale
  unfold socks5Connect
  simp only [Reader.Peek, hpk, hreq, show 5 ≤ body.length + 7 from by omega, if_true,
    List.take, at_, List.getD_cons_succ, List.getD_cons_zero, ne_eq, not_true_eq_false,
    if_false]
  simp only [at_] at hrr
  rw [hrr]
  dsimp only
  rw [hroute]
  dsimp only
  generalize (if method = 0x81 then body.map complement else body) = dom
  generalize (hi * 256 % 65536 + lo) % 65536 = port
  split
  · rfl
  · split <;> rfl

/-- Complementing a byte twice gives the byte back. -/
theorem complement_complement (c : Nat) (h : c < 256) : complement (complement c) = c := by
  unfold complement
  omega

/-- Complementing a byte string twice gives the string back. -/
theorem map_complement_twice (d : Str) (hd : ∀ c ∈ d, c < 256) :
    (d.map complement).map complement = d := by
  induction d with
  | nil => rfl
  | cons c t ih =>
    simp only [List.map_cons, List.cons.injEq]
    exact ⟨complement_complement c (hd c (List.mem_cons_self _ _)),
      ih (fun x hx => hd x (List.mem_cons_of_mem _ hx))⟩

set_option maxRecDepth 100000 in
/-- Where the round trip of C6 does hold: for a domain of at most 249 bytes and
a port below 65536, the request that `connectSocks5` sends under method 0x81
(after the greeting `05 02 00 81`) or under method 0x00 (after `05 01 00`),
arriving in one piece, makes the handler call the connector with the same
domain and the same port. -/
theorem socks5_round_trip_short (cfg : ConfigT) (cache : Cache) (w : World) (d : Str) (p : Nat)
    (ch : ChannelDefine) (cache1 : Cache)
    (hd : ∀ c ∈ d, c < 256) (hlen : d.length ≤ 249) (hp : p < 65536)
    (hw : w.clientWrite 0 = true) (hroute : getProxyConnect cfg cache d = some (ch, cache1)) :
    (doProxy cfg cache w [[5, 2, 0, 0x81], socks5Request 0x81 d p]).dials
      = [{ channel := ch, domain := d, port := p }] ∧
    (doProxy cfg cache w [[5, 1, 0], socks5Request 0 d p]).dials
      = [{ channel := cfg.Socks5, domain := d, port := p }] := by
  have hmod : d.length % 256 = d.length := Nat.mod_eq_of_lt (by omega)
  have hport : (p / 256 % 256 * 256 % 65536 + p % 256) % 65536 = p := by omega
  have hml : (d.map complement).length = d.length := List.length_map _ _
  constructor
  · have hg : ([5, 2, 0, 0x81] : Str).length ≤ bufSize := by decide
    rw [doProxy_socks5 cfg cache w 2 0 [0x81] _ hg, doSocks5]
    have hr := ReadAtLeast_buffered [5, 2, 0, 0x81] (makeBytes 355) [5, 2, 0]
      [socks5Request 0x81 d p] (2 + at_ [5, 2, 0] 2) (by decide) (by decide) (by decide)
      (by decide)
    have hsl : goSlice (overwrite (makeBytes 355) 0 [5, 2, 0, 0x81]) 2
        ((at_ [5, 2, 0] 1 + 2) % 256) = some [0, 0x81] := by decide
    simp only [hr, Bool.not_true, Bool.false_eq_true, if_false, hsl, hw]
    have hsel : selectMethod 0xff [0, 0x81] = 0x81 := by decide
    simp only [hsel, show ¬ ((0x81 : Nat) = 0xff) from by decide, if_false]
    have hreq : socks5Request 0x81 d p = 5 :: 1 :: 0 :: 3 :: (d.map complement).length ::
        (d.map complement ++ [p / 256 % 256, p % 256]) := by
      simp [socks5Request, hmod]
    rw [hreq, socks5Connect_domain cfg cache w 0x81 _ (d.map complement) _ _ [] ch cache1
      (by decide) (by rw [hml]; exact hlen) (by
        have : at_ (overwrite (makeBytes 355) 0 [5, 2, 0, 0x81]) 4 = 0 := by decide
        rw [this]; exact Nat.zero_le _)
      (by simp only [show ¬ ((0x81 : Nat) = 0) from by decide, if_false, if_true,
            map_complement_twice d hd, hroute])]
    simp only [if_true, map_complement_twice d hd, hport]
  · have hg : ([5, 1, 0] : Str).length ≤ bufSize := by decide
    rw [doProxy_socks5 cfg cache w 1 0 [] _ hg, doSocks5]
    have hr := ReadAtLeast_buffered [5, 1, 0] (makeBytes 355) [5, 1, 0]
      [socks5Request 0 d p] (2 + at_ [5, 1, 0] 2) (by decide) (by decide) (by decide)
      (by decide)
    have hsl : goSlice (overwrite (makeBytes 355) 0 [5, 1, 0]) 2
        ((at_ [5, 1, 0] 1 + 2) % 256) = some [0] := by decide
    simp only [hr, Bool.not_true, Bool.false_eq_true, if_false, hsl, hw]
    have hsel : selectMethod 0xff [0] = 0 := by decide
    simp only [hsel, show ¬ ((0 : Nat) = 0xff) from by decide, if_false]
    have hreq : socks5Request 0 d p = 5 :: 1 :: 0 :: 3 :: d.length ::
        (d ++ [p / 256 % 256, p % 256]) := by
      simp [socks5Request, hmod]
    rw [hreq, socks5Connect_domain cfg cache w 0 _ d _ _ [] cfg.Socks5 cache
      (by decide) hlen (by
        have : at_ (overwrite (makeBytes 355) 0 [5, 1, 0]) 4 = 0 := by decide
        rw [this]; exact Nat.zero_le _)
      (by simp)]
    simp only [show ¬ ((0 : Nat) = 0x81) from by decide, if_false, hport]



set_option maxRecDepth 4000 in
/-- Whatever follows, the reply `05 method` of line 416 stays the first thing
written to the client. -/
theorem socks5Connect_sent (cfg : ConfigT) (cache : Cache) (w : World) (method : Nat)
    (temp : Str) (rd : Reader) :
    ∃ tail, (socks5Connect cfg cache w method temp rd).toClient = [5, method] ++ tail := by
  unfold socks5Connect
  dsimp only
  repeat' split
  all_goals first
    | exact ⟨[], rfl⟩
    | exact ⟨_, rfl⟩

/-- Where the selection of C4 does hold: a greeting with at most 253 offered
methods, among them 0x00 or 0x81, that arrives in one piece and whose first
method byte is at most the method count, gets the reply `05 81` when 0x81 is on
offer and `05 00` otherwise, whatever the order of the methods. -/
theorem socks5_method_reply (cfg : ConfigT) (cache : Cache) (w : World) (ms : Str)
    (rest : List Str) (hne : ms ≠ []) (hlen : ms.length ≤ 253)
    (hfirst : ms.headD 0 ≤ ms.length) (hoffer : 0 ∈ ms ∨ 0x81 ∈ ms)
    (hw : w.clientWrite 0 = true) :
    ∃ tail, (doProxy cfg cache w ((5 :: ms.length :: ms) :: rest)).toClient
      = [5, if 0x81 ∈ ms then 0x81 else 0] ++ tail := by
  generalize hk : ms.length = k at hfirst
  rw [hk] at hlen
  cases ms with
  | nil => exact absurd rfl hne
  | cons m1 t =>
    have hkt : k = t.length + 1 := by simpa using hk.symm
    have hg : (5 :: k :: m1 :: t).length ≤ bufSize := by
      simp only [List.length_cons, bufSize]; omega
    have htl : (5 :: k :: m1 :: t).length ≤ (makeBytes 355).length := by
      simp only [List.length_cons, makeBytes_length]; omega
    rw [doProxy_socks5 cfg cache w k m1 t rest hg]
    have hat1 : at_ [5, k, m1] 1 = k := rfl
    simp only [List.headD_cons] at hfirst
    have hr := ReadAtLeast_buffered (5 :: k :: m1 :: t) (makeBytes 355)
      [5, k, m1] rest (2 + at_ [5, k, m1] 2) (by simp) htl
      (by simp [at_]) (by simp only [at_, List.getD_cons_succ, List.getD_cons_zero,
        List.length_cons]; omega)
    have hsl := goSlice_methods 5 k ((k + 2) % 256) (m1 :: t) (makeBytes 355)
      (by rw [Nat.mod_eq_of_lt (by omega)]; simp only [List.length_cons]; omega) htl
    have hsel := selectMethod_spec (m1 :: t)
    have hnot : selectMethod 0xff (m1 :: t) ≠ 0xff := by
      rw [hsel]
      split
      · decide
      · rename_i h81
        rcases hoffer with h | h
        · rw [if_pos h]; decide
        · exact absurd h h81
    have hval : selectMethod 0xff (m1 :: t) = if 0x81 ∈ m1 :: t then 0x81 else 0 := by
      rw [hsel]
      split
      · rfl
      · rename_i h81
        rcases hoffer with h | h
        · rw [if_pos h]
        · exact absurd h h81
    rw [doSocks5]
    simp only [hr, Bool.not_true, Bool.false_eq_true, if_false, hat1, hsl, hnot, hw]
    rw [hval]
    exact socks5Connect_sent cfg cache w _ _ _

/-! ## The HTTP CONNECT branch -/


/-- A byte of a list has a first occurrence. -/
theorem first_occurrence {c : Nat} {s : Str} (h : c ∈ s) :
    ∃ pre post, s = pre ++ c :: post ∧ c ∉ pre := by
  cases hi : IndexByte s c with
  | none => exact absurd h (IndexByte_none hi)
  | some i =>
    obtain ⟨pre, post, h1, h2, _⟩ := IndexByte_some hi
    exact ⟨pre, post, h1, h2⟩

/-- The buffer holds at least two bytes. -/
theorem bufSize_ge : 2 ≤ bufSize := by decide

/-- One `ReadLine` on a stream that still holds a line end: it succeeds and
consumes at least one byte; either it returns an empty line, or an empty line
is still ahead if one was. -/
theorem ReadLine_progress (rd : Reader) (h10 : 10 ∈ rd.flat) :
    ∃ ln rd1, rd.ReadLine = (ln, true, rd1) ∧ rd1.flat.length < rd.flat.length ∧
      (HasBlank rd.flat → ln = [] ∨ HasBlank rd1.flat) := by
  have hb := bufSize_ge
  unfold Reader.ReadLine Reader.ReadSlice
  rcases readSliceLoop_cases 10 rd.pending rd.buf with
    ⟨pre, hok, hfull, hp, hline, hs⟩ | ⟨_, hfull, hfree, hl, hs, hbuf⟩ | ⟨_, _, hfree, _, _⟩
  · -- a whole line
    have hs' : rd.flat = pre ++ 10 :: (readSliceLoop 10 rd.buf rd.pending).rd.flat := hs
    have hlt : (readSliceLoop 10 rd.buf rd.pending).rd.flat.length < rd.flat.length := by
      rw [hs']; simp only [List.length_append, List.length_cons]; omega
    have hblank : HasBlank rd.flat →
        pre = [13] ∨ HasBlank (readSliceLoop 10 rd.buf rd.pending).rd.flat := by
      rintro (⟨t, ht⟩ | ⟨a, b, hab⟩)
      · rw [hs'] at ht
        have ht' : pre ++ 10 :: (readSliceLoop 10 rd.buf rd.pending).rd.flat
            = [13] ++ 10 :: t := ht
        exact Or.inl (first_delim_unique ht' hp (by decide)).1
      · rw [hs'] at hab
        by_cases ha : 10 ∈ a
        · obtain ⟨a1, a2, hsplit, hfree1⟩ := first_occurrence ha
          rw [hsplit, List.append_assoc, List.cons_append] at hab
          have := (first_delim_unique hab hp hfree1).2
          exact Or.inr (Or.inr ⟨a2, b, this⟩)
        · have := (first_delim_unique hab hp ha).2
          exact Or.inr (Or.inl ⟨b, this⟩)
    have hg : (pre ++ [10]).getLast? = some 10 := by simp
    simp only [hfull, Bool.false_eq_true, if_false, hline, List.append_eq_nil, List.cons_ne_nil,
      and_false, hg, List.dropLast_concat, if_true]
    by_cases h13 : pre.getLast? = some 13
    · simp only [h13, if_true]
      refine ⟨_, _, rfl, hlt, fun hbl => ?_⟩
      rcases hblank hbl with e | e
      · left; rw [e]; rfl
      · exact Or.inr e
    · simp only [h13, if_false]
      refine ⟨_, _, rfl, hlt, fun hbl => ?_⟩
      rcases hblank hbl with e | e
      · exact absurd (by rw [e]; rfl) h13
      · exact Or.inr e
  · -- a full buffer without a line end
    have hs' : rd.flat = (readSliceLoop 10 rd.buf rd.pending).line ++
        (readSliceLoop 10 rd.buf rd.pending).rd.flat := hs
    have hlen := congrArg List.length hs'
    simp only [List.length_append] at hlen
    have hblank : HasBlank rd.flat → ∃ m b, (readSliceLoop 10 rd.buf rd.pending).rd.flat
        = m ++ 10 :: 13 :: 10 :: b := by
      rintro (⟨t, ht⟩ | ⟨a, b, hab⟩)
      · rw [hs'] at ht
        have ht' : [13] ++ 10 :: t = (readSliceLoop 10 rd.buf rd.pending).line ++
            (readSliceLoop 10 rd.buf rd.pending).rd.flat := ht.symm
        have := free_head_le ht' hfree
        simp only [List.length_singleton] at this
        omega
      · rw [hs'] at hab
        obtain ⟨m, _, hm⟩ := free_head_split hab.symm hfree
        exact ⟨m, b, hm⟩
    simp only [hfull, if_true]
    split
    · refine ⟨_, _, rfl, ?_, fun hbl => ?_⟩
      · simp only [Reader.flat, hbuf, List.cons_append, List.nil_append, List.length_cons]
        simp only [Reader.flat, hbuf, List.nil_append] at hlen
        omega
      · obtain ⟨m, b, hm⟩ := hblank hbl
        refine Or.inr (Or.inr ⟨13 :: m, b, ?_⟩)
        simp only [Reader.flat, hbuf, List.cons_append, List.nil_append] at hm ⊢
        rw [hm]
    · refine ⟨_, _, rfl, by omega, fun hbl => ?_⟩
      obtain ⟨m, b, hm⟩ := hblank hbl
      exact Or.inr (Or.inr ⟨m, b, hm⟩)
  · exact absurd h10 hfree

/-- A stream with an empty line ahead holds a line feed. -/
theorem HasBlank_mem {s : Str} (h : HasBlank s) : 10 ∈ s := by
  rcases h with ⟨t, rfl⟩ | ⟨a, b, rfl⟩ <;> simp

/-- The loop of lines 337-344 ends at an empty line when one is ahead. -/
theorem skipHeaders_ok (fuel : Nat) :
    ∀ rd : Reader, HasBlank rd.flat → rd.flat.length < fuel →
      ∃ rd1, skipHeaders fuel rd = some rd1 := by
  induction fuel with
  | zero => intro rd _ hf; omega
  | succ fuel ih =>
    intro rd hbl hf
    obtain ⟨ln, rd1, hrl, hlt, hnext⟩ := ReadLine_progress rd (HasBlank_mem hbl)
    rw [skipHeaders, hrl]
    dsimp only
    by_cases hln : ln.length = 0
    · exact ⟨rd1, by simp [hln]⟩
    · simp only [hln, if_false]
      rcases hnext hbl with e | e
      · exact absurd (by rw [e]; rfl) hln
      · exact ih rd1 e (by omega)



/-- The value of a run of digits, in terms of the digit values. -/
theorem digitsValue_map (L : List Nat) (hL : ∀ d ∈ L, d < 10) (acc : Nat) :
    digitsValue acc (L.map (· + 48)) = some (L.foldl (fun a d => a * 10 + d) acc) := by
  induction L generalizing acc with
  | nil => rfl
  | cons d t ih =>
    have hd : d < 10 := hL d (List.mem_cons_self _ _)
    simp only [List.map_cons, digitsValue, List.foldl_cons]
    rw [if_pos ⟨by omega, by omega⟩, Nat.add_sub_cancel]
    exact ih (fun x hx => hL x (List.mem_cons_of_mem _ hx)) _

/-- Reading digits most significant first gives `Nat.ofDigits`. -/
theorem foldl_reverse_ofDigits (L : List Nat) :
    L.reverse.foldl (fun a d => a * 10 + d) 0 = Nat.ofDigits 10 L := by
  induction L with
  | nil => rfl
  | cons x t ih =>
    simp only [List.reverse_cons, List.foldl_append, List.foldl_cons, List.foldl_nil, ih,
      Nat.ofDigits_cons]
    ring

/-- A decimal numeral consists of digits. -/
theorem decimal_digits (p : Nat) : ∀ c ∈ decimal p, 48 ≤ c ∧ c ≤ 57 := by
  intro c hc
  unfold decimal at hc
  split at hc
  · simp at hc; omega
  · simp only [List.mem_map, List.mem_reverse] at hc
    obtain ⟨d, hd, rfl⟩ := hc
    have := Nat.digits_lt_base (by decide : 1 < 10) hd
    omega

/-- A decimal numeral is not empty. -/
theorem decimal_ne_nil (p : Nat) : decimal p ≠ [] := by
  unfold decimal
  split
  · simp
  · rename_i h
    simp [Nat.digits_eq_nil_iff_eq_zero, h]

/-- Numbers below 100000 have at most five digits. -/
theorem decimal_length (p : Nat) (h : p < 10 ^ 5) : (decimal p).length ≤ 5 := by
  unfold decimal
  split
  · simp
  · rename_i h0
    simp only [List.length_map, List.length_reverse]
    rw [Nat.digits_len 10 p (by decide) h0]
    have := Nat.log_lt_of_lt_pow h0 h
    omega

/-- `strconv.Atoi` reads a decimal numeral back. -/
theorem Atoi_decimal (p : Nat) (h2 : p < 2 ^ 63) : Atoi (decimal p) = some (p : Int) := by
  have hval : digitsValue 0 (decimal p) = some p := by
    unfold decimal
    split
    · rename_i h0; subst h0; rfl
    · rw [digitsValue_map _ (fun d hd => by
        rw [List.mem_reverse] at hd
        exact Nat.digits_lt_base (by decide : 1 < 10) hd), foldl_reverse_ofDigits,
        Nat.ofDigits_digits]
  have hd := decimal_digits p
  cases hdec : decimal p with
  | nil => exact absurd hdec (decimal_ne_nil p)
  | cons c t =>
    rw [hdec] at hval hd
    have hc := hd c (List.mem_cons_self _ _)
    unfold Atoi
    have h45 : ¬ c = 45 := by omega
    have h43 : ¬ c = 43 := by omega
    simp only [h45, h43, or_self, if_false, decide_False, Bool.false_eq_true, hval,
      List.cons_ne_nil, h2, if_true]



/-- The reader that `doProxy` works on after its `Peek(3)`. -/
theorem peeked_flat (conn : List Str) :
    (peekFill 3 [] conn).flat = conn.flatten ∧ (peekFill 3 [] conn).buf.length ≤ bufSize := by
  refine ⟨by simpa using peekFill_flat 3 conn [], peekFill_bound 3 conn [] (by simp)⟩

/-- The dispatch of `doProxy` on a stream that starts with `CON`. -/
theorem doProxy_connect (cfg : ConfigT) (cache : Cache) (w : World) (conn : List Str)
    (t : Str) (h : conn.flatten = bytesOf "CON" ++ t) :
    doProxy cfg cache w conn = doConnect cfg cache w (peekFill 3 [] conn) := by
  have hp := Peek_some { buf := [], pending := conn } 3
    (by simp only [Reader.flat, List.nil_append, h, List.length_append]
        have : (bytesOf "CON").length = 3 := by decide
        omega)
    (by decide)
  unfold doProxy
  simp only [hp, Reader.flat, List.nil_append, h]
  have : List.take 3 (bytesOf "CON" ++ t) = bytesOf "CON" := by
    rw [List.take_append_of_le_length (by decide)]
    decide
  simp only [this, if_true]

set_option maxRecDepth 4000 in
/-- The CONNECT branch either returns without a dial or a write, or has read
the verb, the host and the port token, and `Atoi` has accepted the token; every
dial is then to that host and to the value of the token as a `uint16`. -/
theorem doConnect_cases (cfg : ConfigT) (cache : Cache) (w : World) (rd : Reader) :
    (∃ rdx, doConnect cfg cache w rd = Outcome.quiet .closed cache rdx) ∨
    ((rd.ReadSlice 32).ok = true ∧ (rd.ReadSlice 32).line = bytesOf "CONNECT " ∧
      ((rd.ReadSlice 32).rd.ReadSlice 58).ok = true ∧
      (((rd.ReadSlice 32).rd.ReadSlice 58).rd.ReadSlice 32).ok = true ∧
      ∃ v, Atoi ((((rd.ReadSlice 32).rd.ReadSlice 58).rd.ReadSlice 32).line.take
          ((((rd.ReadSlice 32).rd.ReadSlice 58).rd.ReadSlice 32).line.length - 1)) = some v ∧
        ∀ d ∈ (doConnect cfg cache w rd).dials,
          d.domain = ((rd.ReadSlice 32).rd.ReadSlice 58).line.take
            (((rd.ReadSlice 32).rd.ReadSlice 58).line.length - 1) ∧
          d.port = toUint16 v) := by
  unfold doConnect
  dsimp only
  by_cases h1 : (rd.ReadSlice 32).ok = true
  swap
  · exact Or.inl ⟨_, by simp [h1]; rfl⟩
  by_cases h1l : (rd.ReadSlice 32).line = bytesOf "CONNECT "
  swap
  · exact Or.inl ⟨_, by simp [h1, h1l]; rfl⟩
  by_cases h2 : ((rd.ReadSlice 32).rd.ReadSlice 58).ok = true
  swap
  · exact Or.inl ⟨_, by simp [h1, h1l, h2]; rfl⟩
  by_cases h2l : ((rd.ReadSlice 32).rd.ReadSlice 58).line.length ≤ 1
  · exact Or.inl ⟨_, by simp [h1, h1l, h2, h2l]; rfl⟩
  by_cases h3 : (((rd.ReadSlice 32).rd.ReadSlice 58).rd.ReadSlice 32).ok = true
  swap
  · exact Or.inl ⟨_, by simp [h1, h1l, h2, h2l, h3]; rfl⟩
  by_cases h3l : (((rd.ReadSlice 32).rd.ReadSlice 58).rd.ReadSlice 32).line.length ≤ 1
  · exact Or.inl ⟨_, by simp [h1, h1l, h2, h2l, h3, h3l]; rfl⟩
  simp only [h1, h1l, h2, h2l, h3, h3l, Bool.not_true, Bool.false_eq_true, if_false, ne_eq,
    not_true_eq_false]
  cases hv : Atoi ((((rd.ReadSlice 32).rd.ReadSlice 58).rd.ReadSlice 32).line.take
          ((((rd.ReadSlice 32).rd.ReadSlice 58).rd.ReadSlice 32).line.length - 1)) with
  | none => exact Or.inl ⟨_, rfl⟩
  | some v =>
    refine Or.inr ⟨trivial, trivial, trivial, trivial, v, rfl, ?_⟩
    dsimp only
    intro d hd
    split at hd
    · simp [Outcome.quiet] at hd
    split at hd
    · simp [Outcome.quiet] at hd
    split at hd <;> simp at hd <;> subst hd <;> exact ⟨rfl, rfl⟩

/-- When `ReadSlice` succeeds, it has read up to the first delimiter. -/
theorem ReadSlice_ok (b : Reader) (delim : Nat) (pre post : Str)
    (h : b.flat = pre ++ delim :: post) (hp : delim ∉ pre)
    (hok : (b.ReadSlice delim).ok = true) :
    (b.ReadSlice delim).line = pre ++ [delim] ∧ (b.ReadSlice delim).rd.flat = post :=
  readSliceLoop_ok delim b.pending b.buf pre post h hp hok

/-- `ReadSlice` finds a delimiter within the first `bufSize` bytes. -/
theorem ReadSlice_found (b : Reader) (delim : Nat) (pre post : Str)
    (h : b.flat = pre ++ delim :: post) (hp : delim ∉ pre) (hlen : pre.length < bufSize) :
    (b.ReadSlice delim).ok = true ∧ (b.ReadSlice delim).line = pre ++ [delim] ∧
    (b.ReadSlice delim).rd.flat = post :=
  readSliceLoop_found delim b.pending b.buf pre post h hp hlen

/-- `ReadSlice` leaves at most a buffer of bytes buffered. -/
theorem ReadSlice_bound (b : Reader) (delim : Nat) (hb : b.buf.length ≤ bufSize) :
    (b.ReadSlice delim).line.length ≤ bufSize ∧ (b.ReadSlice delim).rd.buf.length ≤ bufSize :=
  readSliceLoop_bound delim b.pending b.buf hb

/-- `uint16(v)` is `v` for `v` in the range of `uint16`. -/
theorem toUint16_of_range (v : Int) (h0 : 0 ≤ v) (h1 : v < 65536) :
    ((toUint16 v : Nat) : Int) = v := by
  unfold toUint16
  rw [Int.toNat_of_nonneg (Int.emod_nonneg _ (by decide))]
  exact Int.emod_eq_of_lt h0 h1

/-- `buff[:len(buff)-1]` cuts the delimiter off. -/
theorem take_length_pred_snoc (l : Str) (c : Nat) :
    (l ++ [c]).take ((l ++ [c]).length - 1) = l := by
  simp

/-- C7 (amended): on a request that begins `CONNECT host:PORT `, every outbound
connection attempt of the handler is to `host` and follows a PORT token that
`strconv.Atoi` accepts (an optional sign and decimal digits, within the range
of `int`); the destination port is the value of the token as a `uint16`, which
is the value itself when that lies in 0..65535; a token that `Atoi` rejects
closes the connection without any attempt or reply. -/
theorem C7_connect_port (cfg : ConfigT) (cache : Cache) (w : World) (conn : List Str)
    (host PORT rest : Str)
    (hconn : conn.flatten = bytesOf "CONNECT " ++ (host ++ 58 :: (PORT ++ 32 :: rest)))
    (hh : 58 ∉ host) (hp : 32 ∉ PORT) :
    (∀ d ∈ (doProxy cfg cache w conn).dials, d.domain = host ∧
      ∃ v, Atoi PORT = some v ∧ d.port = toUint16 v ∧
        (0 ≤ v → v < 65536 → ((d.port : Nat) : Int) = v)) ∧
    (Atoi PORT = none →
      (doProxy cfg cache w conn).dials = [] ∧ (doProxy cfg cache w conn).status = .closed ∧
      (doProxy cfg cache w conn).toClient = []) := by
  have hdisp := doProxy_connect cfg cache w conn
    (bytesOf "NECT " ++ (host ++ 58 :: (PORT ++ 32 :: rest))) (by rw [hconn]; rfl)
  obtain ⟨hflat, _⟩ := peeked_flat conn
  rw [hdisp]
  generalize peekFill 3 [] conn = rd at hflat
  have hs : rd.flat = bytesOf "CONNECT" ++ 32 :: (host ++ 58 :: (PORT ++ 32 :: rest)) := by
    rw [hflat, hconn]; rfl
  rcases doConnect_cases cfg cache w rd with ⟨rdx, hq⟩ | ⟨h1, _, h2, h3, v, hv, hd⟩
  · rw [hq]
    simp [Outcome.quiet]
  · obtain ⟨_, f1⟩ := ReadSlice_ok rd 32 _ _ hs (by decide) h1
    obtain ⟨l2, f2⟩ := ReadSlice_ok _ 58 _ _ f1 hh h2
    obtain ⟨l3, _⟩ := ReadSlice_ok _ 32 _ _ f2 hp h3
    rw [l3, take_length_pred_snoc] at hv
    rw [l2, take_length_pred_snoc] at hd
    refine ⟨fun d hmem => ?_, fun hnone => ?_⟩
    · obtain ⟨e1, e2⟩ := hd d hmem
      exact ⟨e1, v, hv, e2, fun h0 h1 => by rw [e2]; exact toUint16_of_range v h0 h1⟩
    · rw [hnone] at hv
      cases hv



set_option maxRecDepth 100000 in
/-- C7 (counterexample): for the PORT tokens `0`, `65536` and `-1` the handler
does attempt an outbound connection, to the ports 0, 0 and 65535. -/
theorem C7_counterexample :
    (doProxy sampleConfig [] World.good [bytesOf "CONNECT a:0 HTTP/1.1\r\n\r\n"]).dials
      = [{ channel := sampleConfig.Default, domain := bytesOf "a", port := 0 }] ∧
    (doProxy sampleConfig [] World.good [bytesOf "CONNECT a:65536 HTTP/1.1\r\n\r\n"]).dials
      = [{ channel := sampleConfig.Default, domain := bytesOf "a", port := 0 }] ∧
    (doProxy sampleConfig [] World.good [bytesOf "CONNECT a:-1 HTTP/1.1\r\n\r\n"]).dials
      = [{ channel := sampleConfig.Default, domain := bytesOf "a", port := 65535 }] := by
  refine ⟨?_, ?_, ?_⟩ <;> decide

/-- C7 (amended) at the request `CONNECT a:70000 HTTP/1.1`. -/
theorem C7_connect_port_witness :
    (∀ d ∈ (doProxy sampleConfig [] World.good
        [bytesOf "CONNECT a:70000 HTTP/1.1\r\n\r\n"]).dials, d.domain = bytesOf "a" ∧
      ∃ v, Atoi (bytesOf "70000") = some v ∧ d.port = toUint16 v ∧
        (0 ≤ v → v < 65536 → ((d.port : Nat) : Int) = v)) ∧
    (Atoi (bytesOf "70000") = none →
      (doProxy sampleConfig [] World.good [bytesOf "CONNECT a:70000 HTTP/1.1\r\n\r\n"]).dials
        = [] ∧
      (doProxy sampleConfig [] World.good [bytesOf "CONNECT a:70000 HTTP/1.1\r\n\r\n"]).status
        = .closed ∧
      (doProxy sampleConfig [] World.good [bytesOf "CONNECT a:70000 HTTP/1.1\r\n\r\n"]).toClient
        = []) :=
  C7_connect_port sampleConfig [] World.good [bytesOf "CONNECT a:70000 HTTP/1.1\r\n\r\n"]
    (bytesOf "a") (bytesOf "70000") (bytesOf "HTTP/1.1\r\n\r\n") (by decide) (by decide)
    (by decide)


/-- With normalised rule domains `getProxyConnect` does not panic. -/
theorem getProxyConnect_total (cfg : ConfigT) (cache : Cache) (d : Str) (hn : Normalized cfg) :
    ∃ ch cache1, getProxyConnect cfg cache d = some (ch, cache1) := by
  unfold getProxyConnect
  cases hc : cacheGet cache d with
  | some ref => exact ⟨ref.deref cfg, cache, rfl⟩
  | none =>
    rcases scanChannels_spec d cfg.Channel hn with ⟨_, r, _, _, _, _, hs⟩ | ⟨_, hs⟩
    · exact ⟨_, _, by rw [hs]⟩
    · exact ⟨_, _, by rw [hs]⟩

/-- `uint16(p)` is `p` for `p` below 65536. -/
theorem toUint16_natCast (p : Nat) (h : p < 65536) : toUint16 (p : Int) = p := by
  have := toUint16_of_range (p : Int) (Int.natCast_nonneg p) (by exact_mod_cast h)
  exact_mod_cast this

set_option maxRecDepth 4000 in
/-- The CONNECT branch on a well-formed request. -/
theorem doConnect_eq (cfg : ConfigT) (cache : Cache) (w : World) (rd rd4 : Reader)
    (host tok : Str) (v : Int) (ch : ChannelDefine) (cache1 : Cache)
    (h1 : (rd.ReadSlice 32).ok = true) (h1l : (rd.ReadSlice 32).line = bytesOf "CONNECT ")
    (h2 : ((rd.ReadSlice 32).rd.ReadSlice 58).ok = true)
    (h2l : ((rd.ReadSlice 32).rd.ReadSlice 58).line = host ++ [58]) (hhost : host ≠ [])
    (h3 : (((rd.ReadSlice 32).rd.ReadSlice 58).rd.ReadSlice 32).ok = true)
    (h3l : (((rd.ReadSlice 32).rd.ReadSlice 58).rd.ReadSlice 32).line = tok ++ [32])
    (htok : tok ≠ []) (hv : Atoi tok = some v)
    (hs : skipHeaders ((((rd.ReadSlice 32).rd.ReadSlice 58).rd.ReadSlice 32).rd.flat.length + 1)
      (((rd.ReadSlice 32).rd.ReadSlice 58).rd.ReadSlice 32).rd = some rd4)
    (hr : getProxyConnect cfg cache host = some (ch, cache1)) :
    doConnect cfg cache w rd =
      if w.connect ch host (toUint16 v) = true then
        { status := .relay, dials := [{ channel := ch, domain := host, port := toUint16 v }],
          toClient :=
            if w.clientWrite 0 then bytesOf "HTTP/1.1 200 Connection established\r\n\r\n"
            else [],
          toPeer := [], cache := cache1, wrapped := false, rd := rd4 }
      else
        { status := .closed, dials := [{ channel := ch, domain := host, port := toUint16 v }],
          toClient := [], toPeer := [], cache := cache1, wrapped := false, rd := rd4 } := by
  have hl2 : ¬ (host ++ [58]).length ≤ 1 := by
    cases host with
    | nil => exact absurd rfl hhost
    | cons x t => simp
  have hl3 : ¬ (tok ++ [32]).length ≤ 1 := by
    cases tok with
    | nil => exact absurd rfl htok
    | cons x t => simp
  unfold doConnect
  dsimp only
  simp only [h1, h1l, h2, h2l, h3, h3l, hl2, hl3, Bool.not_true, Bool.false_eq_true, if_false,
    ne_eq, not_true_eq_false, take_length_pred_snoc, hv, hs, hr]
  by_cases hc : w.connect ch host (toUint16 v) = true
  · simp [hc]
  · simp [hc]

/-- The rest of the request line and the header lines end with a line feed. -/
theorem headers_end (first : Str) (headers : List Str) :
    ∃ a, first ++ [13, 10] ++ (headers.map (· ++ [13, 10])).flatten = a ++ [10] := by
  rcases List.eq_nil_or_concat headers with rfl | ⟨hs, l, rfl⟩
  · exact ⟨first ++ [13], by simp⟩
  · exact ⟨first ++ [13, 10] ++ (hs.map (· ++ [13, 10])).flatten ++ l ++ [13], by simp⟩

/-- C9 (amended): on a request `CONNECT h:p HTTP/1.1\r\n`, any header lines and
an empty line, in any chunking, with `h` non-empty, free of `:` and shorter
than the 4096 bytes of the reader's buffer, `p` the decimal numeral of a number
in 1..65535 and a configuration with normalised rule domains: the handler
resolves the channel for `h` and calls the connector once, with `(h, p)`; if
the connector succeeds, what the handler has written to the client when the
relay starts is exactly `HTTP/1.1 200 Connection established\r\n\r\n` (the
write succeeding); if the connector fails, nothing is written and the handler
returns. -/
theorem C9_connect_round_trip (cfg : ConfigT) (cache : Cache) (w : World) (conn : List Str)
    (h : Str) (p : Nat) (headers : List Str) (extra : Str)
    (hconn : conn.flatten = bytesOf "CONNECT " ++ (h ++ 58 :: (decimal p ++ 32 ::
      (bytesOf "HTTP/1.1" ++ [13, 10] ++ (headers.map (· ++ [13, 10])).flatten ++
        13 :: 10 :: extra))))
    (hne : h ≠ []) (hcol : 58 ∉ h) (hlen : h.length < bufSize) (hp1 : 1 ≤ p) (hp2 : p ≤ 65535)
    (hn : Normalized cfg) :
    ∃ ch cache1, getProxyConnect cfg cache h = some (ch, cache1) ∧
      (doProxy cfg cache w conn).dials = [{ channel := ch, domain := h, port := p }] ∧
      (w.connect ch h p = true →
        (doProxy cfg cache w conn).status = .relay ∧
        (doProxy cfg cache w conn).toClient =
          if w.clientWrite 0 then bytesOf "HTTP/1.1 200 Connection established\r\n\r\n"
          else []) ∧
      (w.connect ch h p = false →
        (doProxy cfg cache w conn).status = .closed ∧
        (doProxy cfg cache w conn).toClient = []) := by
  obtain ⟨ch, cache1, hr⟩ := getProxyConnect_total cfg cache h hn
  refine ⟨ch, cache1, hr, ?_⟩
  have hdisp := doProxy_connect cfg cache w conn _ (by rw [hconn]; rfl)
  obtain ⟨hflat, _⟩ := peeked_flat conn
  rw [hdisp]
  generalize peekFill 3 [] conn = rd at hflat
  have hs : rd.flat = bytesOf "CONNECT" ++ 32 :: (h ++ 58 :: (decimal p ++ 32 ::
      (bytesOf "HTTP/1.1" ++ [13, 10] ++ (headers.map (· ++ [13, 10])).flatten ++
        13 :: 10 :: extra))) := by
    rw [hflat, hconn]; rfl
  have hdig := decimal_digits p
  have h32 : 32 ∉ decimal p := fun hm => by have := hdig 32 hm; omega
  have hdl : (decimal p).length < bufSize := by
    have := decimal_length p (by omega)
    have : 5 < bufSize := by decide
    omega
  obtain ⟨h1, h1l, f1⟩ := ReadSlice_found rd 32 _ _ hs (by decide) (by decide)
  obtain ⟨h2, h2l, f2⟩ := ReadSlice_found _ 58 _ _ f1 hcol hlen
  obtain ⟨h3, h3l, f3⟩ := ReadSlice_found _ 32 _ _ f2 h32 hdl
  have hv := Atoi_decimal p (by omega)
  obtain ⟨a, ha⟩ := headers_end (bytesOf "HTTP/1.1") headers
  have hbl : HasBlank (((rd.ReadSlice 32).rd.ReadSlice 58).rd.ReadSlice 32).rd.flat := by
    rw [f3, ha]
    exact Or.inr ⟨a, extra, by simp⟩
  obtain ⟨rd4, hsk⟩ := skipHeaders_ok _ _ hbl (Nat.lt_succ_self _)
  rw [doConnect_eq cfg cache w rd rd4 h (decimal p) p ch cache1 h1 h1l h2 h2l hne h3 h3l
    (decimal_ne_nil p) hv hsk hr, toUint16_natCast p (by omega)]
  by_cases hc : w.connect ch h p = true
  · simp [hc]
  · simp [hc]


/-- The numeral of 443. -/
theorem decimal_443 : decimal 443 = bytesOf "443" := by
  have : bytesOf "443" = [52, 52, 51] := by decide
  rw [this]
  norm_num [decimal]

/-- C9 (amended) at the request of the specification,
`CONNECT example.com:443 HTTP/1.1` with one `Host` header. -/
theorem C9_connect_round_trip_witness :
    ∃ ch cache1, getProxyConnect sampleConfig [] (bytesOf "example.com") = some (ch, cache1) ∧
      (doProxy sampleConfig [] World.good
        [bytesOf "CONNECT example.com:443 HTTP/1.1\r\nHost: example.com:443\r\n\r\n"]).dials
        = [{ channel := ch, domain := bytesOf "example.com", port := 443 }] ∧
      (World.good.connect ch (bytesOf "example.com") 443 = true →
        (doProxy sampleConfig [] World.good
          [bytesOf "CONNECT example.com:443 HTTP/1.1\r\nHost: example.com:443\r\n\r\n"]).status
          = .relay ∧
        (doProxy sampleConfig [] World.good
          [bytesOf "CONNECT example.com:443 HTTP/1.1\r\nHost: example.com:443\r\n\r\n"]).toClient
          = if World.good.clientWrite 0 then
              bytesOf "HTTP/1.1 200 Connection established\r\n\r\n"
            else []) ∧
      (World.good.connect ch (bytesOf "example.com") 443 = false →
        (doProxy sampleConfig [] World.good
          [bytesOf "CONNECT example.com:443 HTTP/1.1\r\nHost: example.com:443\r\n\r\n"]).status
          = .closed ∧
        (doProxy sampleConfig [] World.good
          [bytesOf "CONNECT example.com:443 HTTP/1.1\r\nHost: example.com:443\r\n\r\n"]).toClient
          = []) :=
  C9_connect_round_trip sampleConfig [] World.good
    [bytesOf "CONNECT example.com:443 HTTP/1.1\r\nHost: example.com:443\r\n\r\n"]
    (bytesOf "example.com") 443 [bytesOf "Host: example.com:443"] []
    (by rw [decimal_443]; decide) (by decide) (by decide) (by decide) (by decide) (by decide)
    sampleConfig_normalized


/-- The long host fills the buffer. -/
theorem longHost_length : longHost.length = bufSize := by
  rw [longHost, List.length_replicate]; rfl

/-- The long host holds no colon. -/
theorem longHost_free : 58 ∉ longHost := by
  intro h
  rw [longHost] at h
  have := List.eq_of_mem_replicate h
  omega

/-- C9 (counterexample): a CONNECT request whose host has 4096 bytes is dropped
without a reply and without an outbound connection, although the connector
would succeed: `ReadSlice(':')` fails with `ErrBufferFull`. -/
theorem C9_counterexample :
    (doProxy sampleConfig [] World.good
      [bytesOf "CONNECT " ++ (longHost ++ 58 :: bytesOf "443 HTTP/1.1\r\n\r\n")]).toClient = [] ∧
    (doProxy sampleConfig [] World.good
      [bytesOf "CONNECT " ++ (longHost ++ 58 :: bytesOf "443 HTTP/1.1\r\n\r\n")]).dials = [] ∧
    (doProxy sampleConfig [] World.good
      [bytesOf "CONNECT " ++ (longHost ++ 58 :: bytesOf "443 HTTP/1.1\r\n\r\n")]).status
        = .closed := by
  have hfl : [bytesOf "CONNECT " ++ (longHost ++ 58 :: bytesOf "443 HTTP/1.1\r\n\r\n")].flatten
      = bytesOf "CONNECT " ++ (longHost ++ 58 :: bytesOf "443 HTTP/1.1\r\n\r\n") := by
    rw [List.flatten_cons, List.flatten_nil, List.append_nil]
  have hdisp := doProxy_connect sampleConfig [] World.good
    [bytesOf "CONNECT " ++ (longHost ++ 58 :: bytesOf "443 HTTP/1.1\r\n\r\n")]
    (bytesOf "NECT " ++ (longHost ++ 58 :: bytesOf "443 HTTP/1.1\r\n\r\n")) (by rw [hfl]; rfl)
  obtain ⟨hflat, hbuf⟩ := peeked_flat
    [bytesOf "CONNECT " ++ (longHost ++ 58 :: bytesOf "443 HTTP/1.1\r\n\r\n")]
  rw [hdisp]
  generalize peekFill 3 []
    [bytesOf "CONNECT " ++ (longHost ++ 58 :: bytesOf "443 HTTP/1.1\r\n\r\n")] = rd at hflat hbuf
  have hs : rd.flat = bytesOf "CONNECT" ++ 32 ::
      (longHost ++ 58 :: bytesOf "443 HTTP/1.1\r\n\r\n") := by
    rw [hflat, hfl]; rfl
  rcases doConnect_cases sampleConfig [] World.good rd with ⟨rdx, hq⟩ | ⟨h1, _, h2, _⟩
  · rw [hq]
    exact ⟨rfl, rfl, rfl⟩
  · exfalso
    obtain ⟨_, f1⟩ := ReadSlice_ok rd 32 _ _ hs (by decide) h1
    obtain ⟨l2, _⟩ := ReadSlice_ok _ 58 _ _ f1 longHost_free h2
    have hb := (ReadSlice_bound _ 58 (ReadSlice_bound rd 32 hbuf).2).1
    rw [l2, List.length_append, longHost_length] at hb
    simp at hb

/-! ## The HTTP forward-proxy branch -/


/-- `bytes.Index` returns the position of the first instance. -/
theorem Index_first (sep : Str) (p v : Str)
    (hfirst : ∀ u v1, p ++ sep ++ v = u ++ sep ++ v1 → p.length ≤ u.length) :
    Index (p ++ sep ++ v) sep = some p.length := by
  induction p with
  | nil =>
    cases sep with
    | nil =>
      cases v with
      | nil => simp [Index]
      | cons x t => simp [Index, HasPrefix]
    | cons c cs =>
      simp only [List.nil_append, List.cons_append, Index, List.length_nil]
      rw [if_pos ((HasPrefix_iff _ _).2 ⟨v, by simp⟩)]
  | cons x t ih =>
    have hnp : HasPrefix (x :: t ++ sep ++ v) sep = false := by
      by_contra hc
      rw [Bool.not_eq_false] at hc
      obtain ⟨t1, ht1⟩ := (HasPrefix_iff _ _).1 hc
      have := hfirst [] t1 (by simpa using ht1)
      simp at this
    have ih' := ih (fun u v1 he => by
      have := hfirst (x :: u) v1 (by simp only [List.cons_append, he])
      simpa using this)
    simp only [List.cons_append] at hnp
    show Index (x :: (t ++ sep ++ v)) sep = some (t.length + 1)
    rw [Index, hnp]
    simp only [Bool.false_eq_true, if_false]
    rw [ih']
    rfl

/-- The slices that the forward-proxy branch takes from the request line. -/
theorem http_slices (pre H A R : Str) (hH : H.length = 7) :
    (pre ++ H ++ A ++ R).drop (pre.length + 7) = A ++ R ∧
    ((pre ++ H ++ A ++ R).take (pre.length + 7 + A.length)).drop (pre.length + 7) = A ∧
    (pre ++ H ++ A ++ R).take pre.length ++ (pre ++ H ++ A ++ R).drop (pre.length + 7 + A.length)
      = pre ++ R ∧
    (pre ++ R).take ((pre ++ H ++ A ++ R).length - (7 + A.length)) = pre ++ R := by
  have d1 : ∀ X : Str, (pre ++ H ++ X).drop (pre.length + 7) = X := by
    intro X
    have : (pre ++ H).length = pre.length + 7 := by simp [hH]
    rw [← this, List.drop_left]
  have t1 : ∀ X Y : Str, (X ++ Y).take X.length = X := fun X Y => List.take_left _ _
  refine ⟨?_, ?_, ?_, ?_⟩
  · rw [List.append_assoc (pre ++ H) A R]; exact d1 _
  · have : (pre ++ H ++ A).length = pre.length + 7 + A.length := by simp [hH]; omega
    rw [← this, t1]; exact d1 _
  · have h1 : (pre ++ H ++ A ++ R).take pre.length = pre := by
      rw [List.append_assoc pre H A, List.append_assoc pre (H ++ A) R]; exact t1 _ _
    have h2 : (pre ++ H ++ A ++ R).drop (pre.length + 7 + A.length) = R := by
      have : (pre ++ H ++ A).length = pre.length + 7 + A.length := by simp [hH]; omega
      rw [← this, List.drop_left]
    rw [h1, h2]
  · apply List.take_of_length_le
    simp only [List.length_append, hH]
    omega

/-- The dispatch of `doProxy` on a stream that starts with an upper-case letter
and not with `CON`. -/
theorem doProxy_http (cfg : ConfigT) (cache : Cache) (w : World) (conn : List Str)
    (c : Nat) (t : Str) (h : conn.flatten = c :: t) (hlen : 2 ≤ t.length)
    (hc : 65 ≤ c ∧ c ≤ 90) (hcon : (c :: t).take 3 ≠ bytesOf "CON") :
    doProxy cfg cache w conn = doHttp cfg cache w (peekFill 3 [] conn) := by
  have hp := Peek_some { buf := [], pending := conn } 3
    (by simp only [Reader.flat, List.nil_append, h, List.length_cons]; omega)
    (by decide)
  unfold doProxy
  simp only [hp, Reader.flat, List.nil_append, h]
  rw [if_neg hcon]
  have h0 : at_ (List.take 3 (c :: t)) 0 = c := by simp [at_]
  rw [h0, if_pos hc]

/-- The forward-proxy branch on a request line with an absolute URI: the
authority goes to `httpConnect`, with the line without scheme and authority. -/
theorem doHttp_line (cfg : ConfigT) (cache : Cache) (w : World) (rd rd1 : Reader) (ok : Bool)
    (pre A R : Str)
    (hrb : rd.ReadBytes 10 = (pre ++ bytesOf "http://" ++ A ++ 47 :: R, ok, rd1))
    (hfirst : ∀ u v, pre ++ bytesOf "http://" ++ (A ++ 47 :: R) = u ++ bytesOf "http://" ++ v →
      pre.length ≤ u.length)
    (hA : 47 ∉ A) :
    doHttp cfg cache w rd = httpConnect cfg cache w A (pre ++ 47 :: R) rd1 := by
  have hH : (bytesOf "http://").length = 7 := by decide
  have i1 : Index (pre ++ bytesOf "http://" ++ A ++ 47 :: R) (bytesOf "http://")
      = some pre.length := by
    have := Index_first (bytesOf "http://") pre (A ++ 47 :: R) hfirst
    rwa [← List.append_assoc] at this
  obtain ⟨s1, s2, s3, s4⟩ := http_slices pre (bytesOf "http://") A (47 :: R) hH
  have i2 : Index (A ++ 47 :: R) (bytesOf "/") = some A.length := by
    have := Index_first [47] A R (fun u v1 he => by
      have he' : u ++ 47 :: v1 = A ++ 47 :: R := by simpa using he.symm
      exact free_head_le he' hA)
    simpa using this
  unfold doHttp
  rw [hrb]
  dsimp only
  rw [i1]
  dsimp only
  rw [s1, i2]
  dsimp only
  rw [s2, s3, s4]

/-- The authority splits at its first colon. -/
theorem authority_split (host tok : Str) (h : 58 ∉ host) :
    IndexByte (host ++ 58 :: tok) 58 = some host.length ∧
    (host ++ 58 :: tok).drop (host.length + 1) = tok ∧
    (host ++ 58 :: tok).take host.length = host :=
  ⟨IndexByte_first host tok 58 h, (take_succ_split host tok 58).2, List.take_left _ _⟩

set_option maxRecDepth 4000 in
/-- The forward-proxy branch after the authority is split into a host and a
port. -/
theorem httpConnect_target (cfg : ConfigT) (cache : Cache) (w : World) (A line : Str)
    (rd : Reader) (host : Str) (port : Nat) (ch : ChannelDefine) (cache1 : Cache)
    (ht : (58 ∉ A ∧ host = A ∧ port = 80) ∨
      (∃ tok v, A = host ++ 58 :: tok ∧ 58 ∉ host ∧ Atoi tok = some v ∧ port = toUint16 v))
    (hr : getProxyConnect cfg cache host = some (ch, cache1)) :
    (httpConnect cfg cache w A line rd).dials = [{ channel := ch, domain := host, port := port }] ∧
    (w.connect ch host port = true → w.peerWrite = true →
      (httpConnect cfg cache w A line rd).status = .relay ∧
      (httpConnect cfg cache w A line rd).toPeer = line) := by
  have h80 : toUint16 80 = 80 := by decide
  unfold httpConnect
  rcases ht with ⟨hA, rfl, rfl⟩ | ⟨tok, v, rfl, hh, hv, rfl⟩
  · simp only [IndexByte_of_not_mem hA, hr, h80]
    by_cases hc : w.connect ch host 80 = true
    · by_cases hw : w.peerWrite = true
      · simp [hc, hw]
      · simp [hc, hw]
    · simp [hc]
  · obtain ⟨e1, e2, e3⟩ := authority_split host tok hh
    simp only [e1, e2, e3, hv, hr]
    by_cases hc : w.connect ch host (toUint16 v) = true
    · by_cases hw : w.peerWrite = true
      · simp [hc, hw]
      · simp [hc, hw]
    · simp [hc]

/-- The forward-proxy branch returns at once when `Atoi` rejects the port. -/
theorem httpConnect_reject (cfg : ConfigT) (cache : Cache) (w : World) (line : Str)
    (rd : Reader) (host tok : Str) (hh : 58 ∉ host) (hv : Atoi tok = none) :
    httpConnect cfg cache w (host ++ 58 :: tok) line rd = Outcome.quiet .closed cache rd := by
  obtain ⟨e1, e2, _⟩ := authority_split host tok hh
  unfold httpConnect
  simp only [e1, e2, hv]

/-- C8 (amended): a request line `pre ++ "http://" ++ A ++ "/" ++ R ++ "\n"`
(the first `http://` of the line, no `/` in `A`, the line feed its only one)
that the dispatcher hands to the forward-proxy branch (it starts with an upper
case letter and not with `CON`), in any chunking and with normalised rule
domains: the handler resolves the channel for the host and calls the connector
once, with the host `A` and port 80 when `A` has no `:`, and otherwise with the
part of `A` before its first `:` and the value of the part after it, as
`strconv.Atoi` reads it, converted to `uint16` (the value itself when it lies
in 0..65535); when the connector and the write succeed, the line written to the
peer is exactly `pre ++ "/" ++ R ++ "\n"`; a port that `Atoi` rejects closes the
connection without any attempt. -/
theorem C8_forward_rewrite (cfg : ConfigT) (cache : Cache) (w : World) (conn : List Str)
    (pre A R more : Str)
    (hconn : conn.flatten = pre ++ bytesOf "http://" ++ A ++ 47 :: R ++ 10 :: more)
    (hnl : 10 ∉ pre ∧ 10 ∉ A ∧ 10 ∉ R)
    (hfirst : ∀ u v, pre ++ bytesOf "http://" ++ (A ++ 47 :: (R ++ [10]))
      = u ++ bytesOf "http://" ++ v → pre.length ≤ u.length)
    (hA : 47 ∉ A)
    (hverb : ∃ c t, pre = c :: t ∧ 65 ≤ c ∧ c ≤ 90)
    (hcon : (pre ++ bytesOf "http://").take 3 ≠ bytesOf "CON")
    (hn : Normalized cfg) :
    (∀ host port,
      ((58 ∉ A ∧ host = A ∧ port = 80) ∨
        (∃ tok v, A = host ++ 58 :: tok ∧ 58 ∉ host ∧ Atoi tok = some v ∧ port = toUint16 v)) →
      ∃ ch cache1, getProxyConnect cfg cache host = some (ch, cache1) ∧
        (doProxy cfg cache w conn).dials = [{ channel := ch, domain := host, port := port }] ∧
        (w.connect ch host port = true → w.peerWrite = true →
          (doProxy cfg cache w conn).status = .relay ∧
          (doProxy cfg cache w conn).toPeer = pre ++ 47 :: (R ++ [10]))) ∧
    (∀ host tok, A = host ++ 58 :: tok → 58 ∉ host → Atoi tok = none →
      (doProxy cfg cache w conn).dials = [] ∧ (doProxy cfg cache w conn).status = .closed ∧
      (doProxy cfg cache w conn).toPeer = []) ∧
    (∀ v : Int, 0 ≤ v → v < 65536 → ((toUint16 v : Nat) : Int) = v) := by
  obtain ⟨c, t, rfl, hc⟩ := hverb
  have hH : (bytesOf "http://").length = 7 := by decide
  have hdisp := doProxy_http cfg cache w conn c
    (t ++ bytesOf "http://" ++ A ++ 47 :: R ++ 10 :: more) (by rw [hconn]; simp)
    (by simp only [List.length_append, hH]; omega) hc
    (by
      have e : c :: (t ++ bytesOf "http://" ++ A ++ 47 :: R ++ 10 :: more)
          = (c :: t ++ bytesOf "http://") ++ (A ++ 47 :: R ++ 10 :: more) := by simp
      have hl : 3 ≤ (c :: t ++ bytesOf "http://").length := by
        simp only [List.length_append, List.length_cons, hH]
        omega
      rw [e, List.take_append_of_le_length hl]
      exact hcon)
  obtain ⟨hflat, _⟩ := peeked_flat conn
  rw [hdisp]
  generalize peekFill 3 [] conn = rd at hflat
  have hs : rd.flat = (c :: t ++ bytesOf "http://" ++ A ++ 47 :: R) ++ 10 :: more := by
    rw [hflat, hconn]
  have hfree : 10 ∉ c :: t ++ bytesOf "http://" ++ A ++ 47 :: R := by
    have h1 : 10 ∉ bytesOf "http://" := by decide
    simp only [List.mem_append, List.mem_cons, not_or]
    simp only [List.mem_cons, not_or] at hnl
    exact ⟨⟨⟨⟨hnl.1.1, hnl.1.2⟩, h1⟩, hnl.2.1⟩, by decide, hnl.2.2⟩
  obtain ⟨rd1, hrb, _⟩ := ReadBytes_found 10 rd _ more hs hfree
  have hline : (c :: t ++ bytesOf "http://" ++ A ++ 47 :: R) ++ [10]
      = c :: t ++ bytesOf "http://" ++ A ++ 47 :: (R ++ [10]) := by simp
  rw [hline] at hrb
  rw [doHttp_line cfg cache w rd rd1 true (c :: t) A (R ++ [10]) hrb hfirst hA]
  refine ⟨fun host port ht => ?_, fun host tok hsplit hh hv => ?_,
    fun v h0 h1 => toUint16_of_range v h0 h1⟩
  · obtain ⟨ch, cache1, hr⟩ := getProxyConnect_total cfg cache host hn
    exact ⟨ch, cache1, hr, httpConnect_target cfg cache w A _ rd1 host port ch cache1 ht hr⟩
  · rw [hsplit, httpConnect_reject cfg cache w _ rd1 host tok hh hv]
    exact ⟨rfl, rfl, rfl⟩


/-- An instance of the separator bounds what `bytes.Index` returns. -/
theorem Index_le (sep : Str) (u v : Str) :
    ∃ i, Index (u ++ sep ++ v) sep = some i ∧ i ≤ u.length := by
  induction u with
  | nil =>
    refine ⟨0, ?_, le_refl _⟩
    cases hs : ([] ++ sep ++ v : Str) with
    | nil =>
      have : sep = [] := by
        cases sep with
        | nil => rfl
        | cons x t => simp at hs
      simp [Index, this]
    | cons x t =>
      rw [Index, if_pos]
      rw [← hs]
      exact (HasPrefix_iff _ _).2 ⟨v, by simp⟩
  | cons x t ih =>
    obtain ⟨i, hi, hle⟩ := ih
    show ∃ i, Index (x :: (t ++ sep ++ v)) sep = some i ∧ i ≤ (x :: t).length
    rw [Index]
    by_cases hp : HasPrefix (x :: (t ++ sep ++ v)) sep = true
    · exact ⟨0, by rw [if_pos hp], Nat.zero_le _⟩
    · exact ⟨i + 1, by rw [if_neg hp, hi]; rfl, by simp only [List.length_cons]; omega⟩

set_option maxRecDepth 100000 in
/-- C8 (counterexample): for the request line `GET http://a:65536/ HTTP/1.1`
the destination port is 0, not the decimal value 65536 of the port part; for
the port part `-1` it is 65535. -/
theorem C8_counterexample :
    (doProxy sampleConfig [] World.good [bytesOf "GET http://a:65536/ HTTP/1.1\r\n"]).dials
      = [{ channel := sampleConfig.Default, domain := bytesOf "a", port := 0 }] ∧
    (doProxy sampleConfig [] World.good [bytesOf "GET http://a:-1/ HTTP/1.1\r\n"]).dials
      = [{ channel := sampleConfig.Default, domain := bytesOf "a", port := 65535 }] := by
  refine ⟨?_, ?_⟩ <;> decide

set_option maxRecDepth 100000 in
/-- C8 (amended) at the request line of the specification,
`GET http://example.com/path HTTP/1.1`. -/
theorem C8_forward_rewrite_witness :
    ∃ ch cache1, getProxyConnect sampleConfig [] (bytesOf "example.com") = some (ch, cache1) ∧
      (doProxy sampleConfig [] World.good
        [bytesOf "GET http://example.com/path HTTP/1.1\r\n"]).dials
        = [{ channel := ch, domain := bytesOf "example.com", port := 80 }] ∧
      (World.good.connect ch (bytesOf "example.com") 80 = true → World.good.peerWrite = true →
        (doProxy sampleConfig [] World.good
          [bytesOf "GET http://example.com/path HTTP/1.1\r\n"]).status = .relay ∧
        (doProxy sampleConfig [] World.good
          [bytesOf "GET http://example.com/path HTTP/1.1\r\n"]).toPeer
          = bytesOf "GET " ++ 47 :: (bytesOf "path HTTP/1.1\r" ++ [10])) :=
  (C8_forward_rewrite sampleConfig [] World.good
    [bytesOf "GET http://example.com/path HTTP/1.1\r\n"]
    (bytesOf "GET ") (bytesOf "example.com") (bytesOf "path HTTP/1.1\r") []
    (by decide) (by decide)
    (fun u v he => by
      obtain ⟨i, hi, hle⟩ := Index_le (bytesOf "http://") u v
      rw [← he] at hi
      have h4 : Index (bytesOf "GET " ++ bytesOf "http://" ++
          (bytesOf "example.com" ++ 47 :: (bytesOf "path HTTP/1.1\r" ++ [10])))
          (bytesOf "http://") = some 4 := by decide
      rw [h4] at hi
      cases hi
      exact hle)
    (by decide) ⟨71, bytesOf "ET ", by decide, by decide, by decide⟩ (by decide)
    sampleConfig_normalized).1 (bytesOf "example.com") 80 (Or.inl ⟨by decide, rfl, rfl⟩)

/-! ## The Shadowsocks connector -/

/-- C10 (the code at the failing input): a failed call with the address string
`a:1,b:1` leaves `sspos` at 1; the next call, of a channel with the single
address `c:1`, splits that string into one address and panics on
`ssaddrs[sspos]`, the index 1 being out of range. -/
theorem C10_pool_index_out_of_range :
    connectShadowSocks SSPool.init true (fun _ => false) (bytesOf "a:1,b:1") (bytesOf "x") 80
      = .dialed (bytesOf "a:1") (3 :: 1 :: bytesOf "x" ++ [0, 80]) false
          { ssaddrs := [bytesOf "a:1", bytesOf "b:1"], sspos := 1 } ∧
    connectShadowSocks { ssaddrs := [bytesOf "a:1", bytesOf "b:1"], sspos := 1 } true
        (fun _ => false) (bytesOf "c:1") (bytesOf "x") 80
      = .panic { ssaddrs := [bytesOf "c:1"], sspos := 1 } := by
  refine ⟨?_, ?_⟩ <;> decide

/-! ## Failover of the Shadowsocks connector -/

/-- With a working cipher and the cursor inside the pool, `connectShadowSocks`
dials the address at the cursor and nothing else; a failed dial moves the
cursor on by one, modulo the pool size, a successful one leaves it. -/
theorem connectShadowSocks_dialed (st : SSPool) (dial : Str → Bool) (ssaddr domain : Str)
    (port : Nat) (hi : st.sspos < (splitComma ssaddr).length) :
    connectShadowSocks st true dial ssaddr domain port =
      .dialed ((splitComma ssaddr).getD st.sspos [])
        ([3, domain.length % 256] ++ domain ++ [port / 256 % 256, port % 256])
        (dial ((splitComma ssaddr).getD st.sspos []))
        { ssaddrs := splitComma ssaddr,
          sspos := if dial ((splitComma ssaddr).getD st.sspos []) then st.sspos
            else (st.sspos + 1) % (splitComma ssaddr).length } := by
  have hget : (splitComma ssaddr).get? st.sspos
      = some ((splitComma ssaddr).getD st.sspos []) := by
    rw [List.get?_eq_getElem?, List.getD_eq_getElem?_getD, List.getElem?_eq_getElem hi]
    rfl
  unfold connectShadowSocks
  simp only [Bool.not_true, Bool.false_eq_true, if_false, hget]
  cases hd : dial ((splitComma ssaddr).getD st.sspos []) <;> simp

/-- After `k` failing calls from the cursor `i`, the addresses dialed are those
at `i`, `i + 1`, ... (modulo the pool size) and the cursor is at `i + k`
(modulo the pool size). -/
theorem ssCalls_failing (ssaddr domain : Str) (port : Nat) (k : Nat) (st : SSPool)
    (hi : st.sspos < (splitComma ssaddr).length) :
    (ssCalls true (fun _ => false) ssaddr domain port k st).1
      = (List.range k).map
          (fun j => (splitComma ssaddr).getD ((st.sspos + j) % (splitComma ssaddr).length) []) ∧
    (ssCalls true (fun _ => false) ssaddr domain port k st).2.sspos
      = (st.sspos + k) % (splitComma ssaddr).length := by
  induction k generalizing st with
  | zero => simp [ssCalls, Nat.mod_eq_of_lt hi]
  | succ k ih =>
    have hN : 0 < (splitComma ssaddr).length := by omega
    have hstep := connectShadowSocks_dialed st (fun _ => false) ssaddr domain port hi
    simp only [Bool.false_eq_true, if_false] at hstep
    have ih1 := ih (SSPool.mk (splitComma ssaddr) ((st.sspos + 1) % (splitComma ssaddr).length))
      (Nat.mod_lt _ hN)
    simp only [ssCalls, hstep]
    refine ⟨?_, ?_⟩
    · rw [ih1.1, List.range_succ_eq_map, List.map_cons, List.map_map]
      congr 1
      · simp [Nat.mod_eq_of_lt hi]
      · apply List.map_congr_left
        intro j _
        simp only [Function.comp, Nat.mod_add_mod]
        congr 2
        omega
    · rw [ih1.2, Nat.mod_add_mod]
      congr 1
      omega

/-- Reading a list round from index `i` is rotating it by `i`. -/
theorem range_map_rotate (l : List Str) (i : Nat) :
    (List.range l.length).map (fun j => l.getD ((i + j) % l.length) []) = l.rotate i := by
  apply List.ext_getElem
  · simp
  · intro n h1 h2
    have hn : n < l.length := by simpa using h1
    have hlt : (i + n) % l.length < l.length := Nat.mod_lt _ (by omega)
    simp only [List.getElem_map, List.getElem_range, List.getElem_rotate]
    rw [List.getD_eq_getElem?_getD, List.getElem?_eq_getElem hlt]
    simp [Nat.add_comm]

/-- C11: for an address string that splits into N addresses and a cursor i < N,
one call of `connectShadowSocks` (cipher accepted) dials the address at the
cursor and no other, and leaves the cursor at i when the dial succeeds and at
(i + 1) mod N when it fails; N consecutive failing calls dial the N addresses
in pool order from i round, each exactly once, and bring the cursor back to
i. -/
theorem C11_failover (st : SSPool) (dial : Str → Bool) (ssaddr domain : Str) (port : Nat)
    (hi : st.sspos < (splitComma ssaddr).length) :
    (∃ addr, (splitComma ssaddr).get? st.sspos = some addr ∧
      connectShadowSocks st true dial ssaddr domain port =
        .dialed addr ([3, domain.length % 256] ++ domain ++ [port / 256 % 256, port % 256])
          (dial addr)
          { ssaddrs := splitComma ssaddr,
            sspos := if dial addr then st.sspos
              else (st.sspos + 1) % (splitComma ssaddr).length }) ∧
    (ssCalls true (fun _ => false) ssaddr domain port (splitComma ssaddr).length st).1
      = (splitComma ssaddr).rotate st.sspos ∧
    ((ssCalls true (fun _ => false) ssaddr domain port (splitComma ssaddr).length st).1).Perm
      (splitComma ssaddr) ∧
    (ssCalls true (fun _ => false) ssaddr domain port (splitComma ssaddr).length st).2.sspos
      = st.sspos := by
  have hrun := ssCalls_failing ssaddr domain port (splitComma ssaddr).length st hi
  have hrot : (ssCalls true (fun _ => false) ssaddr domain port (splitComma ssaddr).length st).1
      = (splitComma ssaddr).rotate st.sspos := by
    rw [hrun.1, range_map_rotate]
  refine ⟨⟨(splitComma ssaddr).getD st.sspos [], ?_,
    connectShadowSocks_dialed st dial ssaddr domain port hi⟩, hrot, ?_, ?_⟩
  · rw [List.get?_eq_getElem?, List.getD_eq_getElem?_getD, List.getElem?_eq_getElem hi]
    rfl
  · rw [hrot]
    exact List.rotate_perm _ _
  · rw [hrun.2, Nat.add_mod_right, Nat.mod_eq_of_lt hi]

/-- C11 at the pool `a,b,c` with the cursor at 1 and a dial that always
fails. -/
theorem C11_failover_witness :
    (1 < (splitComma (bytesOf "a,b,c")).length) ∧
    (ssCalls true (fun _ => false) (bytesOf "a,b,c") (bytesOf "x.org") 443 3
        { ssaddrs := [], sspos := 1 }).1 = [bytesOf "b", bytesOf "c", bytesOf "a"] ∧
    (ssCalls true (fun _ => false) (bytesOf "a,b,c") (bytesOf "x.org") 443 3
        { ssaddrs := [], sspos := 1 }).2.sspos = 1 :=
  ⟨by decide,
    (C11_failover { ssaddrs := [], sspos := 1 } (fun _ => false) (bytesOf "a,b,c")
      (bytesOf "x.org") 443 (by decide)).2.1.trans (by decide),
    (C11_failover { ssaddrs := [], sspos := 1 } (fun _ => false) (bytesOf "a,b,c")
      (bytesOf "x.org") 443 (by decide)).2.2.2⟩

/-! ## The cache of the channel router -/

/-- C12 (counterexample): with the sample table no rule matches `other.org`,
so the first call selects the default channel and caches `&Config.Default`;
after the table is changed to one with another default channel the second call
finds the entry and selects the new default channel, not the channel of the
first call. -/
theorem C12_counterexample :
    getProxyConnect sampleConfig [] (bytesOf "other.org")
      = some (sampleChannel "default", [(bytesOf "other.org", .configDefault)]) ∧
    getProxyConnect changedConfig [(bytesOf "other.org", .configDefault)] (bytesOf "other.org")
      = some (sampleChannel "direct", [(bytesOf "other.org", .configDefault)]) ∧
    sampleChannel "direct" ≠ sampleChannel "default" := by
  refine ⟨?_, ?_, ?_⟩ <;> decide

/-- C12 (amended): with normalised rule domains in the table `cfg`, a call of
`getProxyConnect` for `d` returns and leaves `d` cached, every entry the cache
had before being as it was.  A second call for `d` after the table has been
changed to `cfg2` returns from the cache, which it leaves as it is.  It selects
the channel of the first call when the entry is the copy of a rule's channel
(which on a cache miss is the case exactly when a rule of `cfg` matches `d`) or
when `cfg2` has the default channel of `cfg`; when the entry is the pointer to
the default channel, the first call selected the default of `cfg` and the
second selects the default of `cfg2`. -/
theorem C12_cache_idempotence (cfg cfg2 : ConfigT) (cache : Cache) (d : Str)
    (hn : Normalized cfg) :
    ∃ ch cache1 ch2, getProxyConnect cfg cache d = some (ch, cache1) ∧
      getProxyConnect cfg2 cache1 d = some (ch2, cache1) ∧
      (∀ k ref, cacheGet cache k = some ref → cacheGet cache1 k = some ref) ∧
      (cacheGet cache1 d = some (.copy ch) ∨ cacheGet cache1 d = some .configDefault) ∧
      (cacheGet cache1 d = some (.copy ch) ∨ cfg2.Default = cfg.Default → ch2 = ch) ∧
      (cacheGet cache1 d = some .configDefault → ch = cfg.Default ∧ ch2 = cfg2.Default) ∧
      (cacheGet cache d = none →
        (cacheGet cache1 d = some (.copy ch) ↔ ∃ r ∈ cfg.Channel, RuleMatches r d)) := by
  cases hc : cacheGet cache d with
  | some ref =>
    refine ⟨ref.deref cfg, cache, ref.deref cfg2, by simp [getProxyConnect, hc],
      by simp [getProxyConnect, hc], fun _ _ h => h, ?_, ?_, ?_, ?_⟩
    · cases ref <;> simp [ChannelRef.deref, hc]
    · rintro (h | h)
      · cases ref <;> simp_all [ChannelRef.deref]
      · cases ref <;> simp [ChannelRef.deref, h]
    · intro h
      cases ref <;> simp_all [ChannelRef.deref]
    · intro h
      cases h
  | none =>
    have hkeep : ∀ (ref0 : ChannelRef) (k : Str) (ref : ChannelRef),
        cacheGet cache k = some ref → cacheGet (cacheSet cache d ref0) k = some ref := by
      intro ref0 k ref hk
      rw [cacheGet_cacheSet]
      split
      · next hdk => subst hdk; rw [hc] at hk; cases hk
      · exact hk
    rcases scanChannels_spec d cfg.Channel hn with
      ⟨pre, r, post, hsplit, _, hr, hs⟩ | ⟨hall, hs⟩
    · refine ⟨r.ChannelDefine, cacheSet cache d (.copy r.ChannelDefine), r.ChannelDefine,
        by simp [getProxyConnect, hc, hs],
        by simp [getProxyConnect, cacheGet_cacheSet, ChannelRef.deref],
        hkeep _, by simp [cacheGet_cacheSet], fun _ => rfl,
        by simp [cacheGet_cacheSet], ?_⟩
      intro _
      simp only [cacheGet_cacheSet, if_true, true_iff]
      exact ⟨r, by rw [hsplit]; simp, hr⟩
    · refine ⟨cfg.Default, cacheSet cache d .configDefault, cfg2.Default,
        by simp [getProxyConnect, hc, hs],
        by simp [getProxyConnect, cacheGet_cacheSet, ChannelRef.deref],
        hkeep _, by simp [cacheGet_cacheSet], ?_,
        by simp [cacheGet_cacheSet], ?_⟩
      · rintro (h | h)
        · simp [cacheGet_cacheSet] at h
        · exact h
      · intro _
        simp only [cacheGet_cacheSet, if_true]
        constructor
        · intro h
          simp at h
        · rintro ⟨r, hr, hm⟩
          exact absurd hm (hall r hr)

/-- C12 at the sample table, an empty cache and `a.example.com`, the table
being changed to one without rules and with another default channel. -/
theorem C12_cache_idempotence_witness :
    Normalized sampleConfig ∧
    ∃ ch cache1 ch2,
      getProxyConnect sampleConfig [] (bytesOf "a.example.com") = some (ch, cache1) ∧
      getProxyConnect changedConfig cache1 (bytesOf "a.example.com") = some (ch2, cache1) ∧
      (∀ k ref, cacheGet [] k = some ref → cacheGet cache1 k = some ref) ∧
      (cacheGet cache1 (bytesOf "a.example.com") = some (.copy ch) ∨
        cacheGet cache1 (bytesOf "a.example.com") = some .configDefault) ∧
      (cacheGet cache1 (bytesOf "a.example.com") = some (.copy ch) ∨
        changedConfig.Default = sampleConfig.Default → ch2 = ch) ∧
      (cacheGet cache1 (bytesOf "a.example.com") = some .configDefault →
        ch = sampleConfig.Default ∧ ch2 = changedConfig.Default) ∧
      (cacheGet [] (bytesOf "a.example.com") = none →
        (cacheGet cache1 (bytesOf "a.example.com") = some (.copy ch) ↔
          ∃ r ∈ sampleConfig.Channel, RuleMatches r (bytesOf "a.example.com"))) :=
  ⟨sampleConfig_normalized,
    C12_cache_idempotence sampleConfig changedConfig [] (bytesOf "a.example.com")
      sampleConfig_normalized⟩

/-! ## The obfuscating wrappers -/

/-- The complement of a byte is a byte. -/
theorem complement_lt (c : Nat) : complement c < 256 := by
  unfold complement
  omega

/-- Complementing the first `n` bytes of a buffer twice gives the buffer back. -/
theorem complementFirst_twice (n : Nat) (b : Str) (hb : ∀ c ∈ b, c < 256) :
    complementFirst n (complementFirst n b) = b := by
  unfold complementFirst
  have hlen : ((b.take n).map complement).length = min n b.length := by simp
  have h1 : (List.map complement (List.take n b) ++ List.drop n b).take n
      = List.map complement (List.take n b) := by
    rw [List.take_append_eq_append_take, List.take_of_length_le (by rw [hlen]; omega)]
    simp only [hlen]
    rcases Nat.le_total n b.length with h | h
    · simp [Nat.min_eq_left h]
    · simp [List.drop_of_length_le h]
  have h2 : (List.map complement (List.take n b) ++ List.drop n b).drop n = List.drop n b := by
    rw [List.drop_append_eq_append_drop, List.drop_of_length_le (by rw [hlen]; omega)]
    simp only [hlen]
    rcases Nat.le_total n b.length with h | h
    · simp [Nat.min_eq_left h]
    · simp [List.drop_of_length_le h]
  rw [h1, h2, map_complement_twice _ (fun c hc => hb c (List.mem_of_mem_take hc)),
    List.take_append_drop]

/-- C13: the transform of `EConn.Write`, and that of `EConn.Read` and
`EReader.Read` on the bytes a successful underlying `Read` delivered, is the
bytewise complement; on every byte sequence (the empty one, runs of 0x00 and of
0xFF among them) it keeps the length and is its own inverse, and what
`EConn.Write` sends is read back unchanged by `EConn.Read` and by
`EReader.Read`. -/
theorem C13_complement_involution (bs : Str) (hb : ∀ c ∈ bs, c < 256) :
    EConn.Write (EConn.Write bs) = bs ∧
    (EConn.Write bs).length = bs.length ∧
    (∀ c ∈ EConn.Write bs, c < 256) ∧
    (∀ n, (EConn.Read (EConn.Read bs n false).1 n false).1 = bs ∧
      ((EConn.Read bs n false).1).length = bs.length) ∧
    (∀ n, (EReader.Read (EReader.Read bs n false).1 n false).1 = bs ∧
      ((EReader.Read bs n false).1).length = bs.length) ∧
    (∀ tail, EConn.Read (EConn.Write bs ++ tail) bs.length false
      = (bs ++ tail, bs.length, false)) ∧
    (∀ tail, EReader.Read (EConn.Write bs ++ tail) bs.length false
      = (bs ++ tail, bs.length, false)) ∧
    EConn.Write [] = [] ∧
    (∀ k, EConn.Write (List.replicate k 0) = List.replicate k 255 ∧
      EConn.Write (List.replicate k 255) = List.replicate k 0) := by
  have hw : (EConn.Write bs).length = bs.length := by simp [EConn.Write]
  have hfirst : ∀ tail, complementFirst bs.length (EConn.Write bs ++ tail) = bs ++ tail := by
    intro tail
    unfold complementFirst
    rw [List.take_append_eq_append_take, List.drop_append_eq_append_drop,
      List.take_of_length_le (by rw [hw]), List.drop_of_length_le (by rw [hw]), hw]
    simp only [Nat.sub_self, List.take_zero, List.append_nil, List.drop_zero, List.nil_append]
    rw [EConn.Write, map_complement_twice bs hb]
  refine ⟨map_complement_twice bs hb, hw, ?_, ?_, ?_, ?_, ?_, rfl, ?_⟩
  · intro c hc
    simp only [EConn.Write, List.mem_map] at hc
    rcases hc with ⟨a, _, rfl⟩
    exact complement_lt a
  · intro n
    simp only [EConn.Read, Bool.false_eq_true, if_false]
    exact ⟨complementFirst_twice n bs hb, by simp [complementFirst]; omega⟩
  · intro n
    simp only [EReader.Read, Bool.false_eq_true, if_false]
    exact ⟨complementFirst_twice n bs hb, by simp [complementFirst]; omega⟩
  · intro tail
    simp only [EConn.Read, Bool.false_eq_true, if_false, hfirst]
  · intro tail
    simp only [EReader.Read, Bool.false_eq_true, if_false, hfirst]
  · intro k
    simp [EConn.Write, complement]

/-- C13 at the bytes `00 FF 41`. -/
theorem C13_complement_involution_witness :
    (∀ c ∈ ([0, 255, 65] : Str), c < 256) ∧
    EConn.Write (EConn.Write [0, 255, 65]) = [0, 255, 65] ∧
    EConn.Write [0, 255, 65] = [255, 0, 190] :=
  ⟨by decide, (C13_complement_involution [0, 255, 65] (by decide)).1, by decide⟩

/-- The first `n` bytes after the loop of lines 35-37 are the complements of
the first `n` bytes before it, and the bytes behind them are untouched. -/
theorem complementFirst_split (n : Nat) (b : Str) :
    (complementFirst n b).take n = (b.take n).map complement ∧
    (complementFirst n b).drop n = b.drop n := by
  unfold complementFirst
  have hlen : ((b.take n).map complement).length = min n b.length := by simp
  constructor
  · rw [List.take_append_eq_append_take, List.take_of_length_le (by rw [hlen]; omega)]
    simp only [hlen]
    rcases Nat.le_total n b.length with h | h
    · simp [Nat.min_eq_left h]
    · simp [List.drop_of_length_le h]
  · rw [List.drop_append_eq_append_drop, List.drop_of_length_le (by rw [hlen]; omega)]
    simp only [hlen]
    rcases Nat.le_total n b.length with h | h
    · simp [Nat.min_eq_left h]
    · simp [List.drop_of_length_le h]

/-- C14 (counterexample): when the underlying `Read` has put the byte 0x41
into the buffer and returned `n = 1` together with an error, `EConn.Read` and
`EReader.Read` return at the test `err != nil`, before their loop, and the
first byte handed to the caller is 0x41, not its complement 0xBE. -/
theorem C14_counterexample :
    ((EConn.Read [0x41] 1 true).1).take 1 = [0x41] ∧
    ((EReader.Read [0x41] 1 true).1).take 1 = [0x41] ∧
    (([0x41] : Str).take 1).map complement = [0xBE] ∧
    ((EConn.Read [0x41] 1 true).1).take 1 ≠ (([0x41] : Str).take 1).map complement ∧
    ((EReader.Read [0x41] 1 true).1).take 1 ≠ (([0x41] : Str).take 1).map complement := by
  refine ⟨?_, ?_, ?_, ?_, ?_⟩ <;> decide

/-- C14 (amended): `b` being the buffer as the underlying `Read` left it and
`n` the count it returned, `EConn.Read` and `EReader.Read` hand to the caller,
when the underlying error is nil, the complements of the first `n` bytes and
the rest of the buffer as it is, and when the error is not nil the whole buffer
as it is; the count and the error returned are those of the underlying `Read`
in every case. -/
theorem C14_read_complement (b : Str) (n : Nat) :
    ((EConn.Read b n false).1).take n = (b.take n).map complement ∧
    ((EConn.Read b n false).1).drop n = b.drop n ∧
    (EConn.Read b n true).1 = b ∧
    (∀ err, (EConn.Read b n err).2 = (n, err)) ∧
    ((EReader.Read b n false).1).take n = (b.take n).map complement ∧
    ((EReader.Read b n false).1).drop n = b.drop n ∧
    (EReader.Read b n true).1 = b ∧
    (∀ err, (EReader.Read b n err).2 = (n, err)) := by
  have hs := complementFirst_split n b
  refine ⟨?_, ?_, ?_, ?_, ?_, ?_, ?_, ?_⟩
  · simpa [EConn.Read] using hs.1
  · simpa [EConn.Read] using hs.2
  · simp [EConn.Read]
  · intro err
    cases err <;> simp [EConn.Read]
  · simpa [EReader.Read] using hs.1
  · simpa [EReader.Read] using hs.2
  · simp [EReader.Read]
  · intro err
    cases err <;> simp [EReader.Read]

/-! ## The SOCKS5 branch: failure reply, routing, greeting and request checks -/

set_option maxRecDepth 100000 in
/-- C15 (the code at the failing input): after the greeting `05 02 00 81`
(method 0x81 selected) the request `05 01 00 03 03 9E D1 9D 01 BB`, whose
domain bytes are the complement of `a.b`, is answered on connector failure with
`05 01 00 03 03 61 2E 62 01 BB`: the domain bytes come back decoded, not as the
client sent them.  Under method 0x00 the same failure returns the request bytes
as they were sent. -/
theorem C15_failure_reply_decoded :
    (doProxy sampleConfig [] World.refusing
      [[5, 2, 0, 0x81], [5, 1, 0, 3, 3, 0x9E, 0xD1, 0x9D, 1, 187]]).toClient
        = [5, 0x81] ++ [5, 1, 0, 3, 3, 0x61, 0x2E, 0x62, 1, 187] ∧
    (doProxy sampleConfig [] World.refusing
      [[5, 2, 0, 0x81], [5, 1, 0, 3, 3, 0x9E, 0xD1, 0x9D, 1, 187]]).dials
        = [{ channel := sampleConfig.Default, domain := bytesOf "a.b", port := 443 }] ∧
    (bytesOf "a.b").map complement = [0x9E, 0xD1, 0x9D] ∧
    (doProxy sampleConfig [] World.refusing
      [[5, 1, 0], [5, 1, 0, 3, 3, 0x61, 0x2E, 0x62, 1, 187]]).toClient
        = [5, 0] ++ [5, 1, 0, 3, 3, 0x61, 0x2E, 0x62, 1, 187] := by
  refine ⟨?_, ?_, ?_, ?_⟩ <;> decide

/-- The channel of every connector call of the SOCKS5 branch: the configured
socks5 channel under method 0x00, the cache being left alone, and what
`getProxyConnect` returns for the domain otherwise, the cache being the one
`getProxyConnect` leaves. -/
theorem socks5Connect_route (cfg : ConfigT) (cache : Cache) (w : World) (method : Nat)
    (temp : Str) (rd : Reader) :
    ∀ d ∈ (socks5Connect cfg cache w method temp rd).dials,
      (if method = 0 then some (cfg.Socks5, cache) else getProxyConnect cfg cache d.domain)
        = some (d.channel, (socks5Connect cfg cache w method temp rd).cache) := by
  unfold socks5Connect
  dsimp only
  repeat' split
  all_goals simp_all [Outcome.quiet]

/-- Without a connector call the SOCKS5 branch leaves the cache as it was. -/
theorem socks5Connect_cache (cfg : ConfigT) (cache : Cache) (w : World) (method : Nat)
    (temp : Str) (rd : Reader) (h : (socks5Connect cfg cache w method temp rd).dials = []) :
    (socks5Connect cfg cache w method temp rd).cache = cache := by
  revert h
  unfold socks5Connect
  dsimp only
  repeat' split
  all_goals simp_all [Outcome.quiet]

/-- C16: in the SOCKS5 branch, whatever the table, the cache and the request,
under method 0x00 every connector call goes to the configured socks5 channel
and the cache is left unchanged, and under method 0x81 every connector call
goes to the channel that `getProxyConnect` returns for the domain, the cache
being the one `getProxyConnect` leaves.  For a domain request of at most 249
bytes that arrives in one piece there is exactly one such call: to the socks5
channel with the domain as sent under 0x00, and to the channel resolved for the
decoded domain under 0x81. -/
theorem C16_method_routing (cfg : ConfigT) (cache : Cache) (w : World) (temp body : Str)
    (hi lo : Nat) (rest : List Str) (htemp : temp.length = 355) (hL : body.length ≤ 249)
    (hstale : at_ temp 4 ≤ body.length) (hn : Normalized cfg) :
    (∀ rd,
      (∀ d ∈ (socks5Connect cfg cache w 0 temp rd).dials, d.channel = cfg.Socks5) ∧
      (socks5Connect cfg cache w 0 temp rd).cache = cache ∧
      (∀ d ∈ (socks5Connect cfg cache w 0x81 temp rd).dials,
        getProxyConnect cfg cache d.domain
          = some (d.channel, (socks5Connect cfg cache w 0x81 temp rd).cache))) ∧
    (socks5Connect cfg cache w 0 temp
      { buf := [], pending := (5 :: 1 :: 0 :: 3 :: body.length :: (body ++ [hi, lo])) :: rest }).dials
      = [{ channel := cfg.Socks5, domain := body, port := (hi * 256 % 65536 + lo) % 65536 }] ∧
    ∃ ch cache1, getProxyConnect cfg cache (body.map complement) = some (ch, cache1) ∧
      (socks5Connect cfg cache w 0x81 temp
        { buf := [], pending := (5 :: 1 :: 0 :: 3 :: body.length :: (body ++ [hi, lo])) :: rest }).dials
        = [{ channel := ch, domain := body.map complement,
             port := (hi * 256 % 65536 + lo) % 65536 }] ∧
      (socks5Connect cfg cache w 0x81 temp
        { buf := [], pending := (5 :: 1 :: 0 :: 3 :: body.length :: (body ++ [hi, lo])) :: rest }).cache
        = cache1 := by
  refine ⟨?_, ?_, ?_⟩
  · intro rd
    refine ⟨?_, ?_, ?_⟩
    · intro d hd
      have h := socks5Connect_route cfg cache w 0 temp rd d hd
      simp only [if_true, Option.some.injEq, Prod.mk.injEq] at h
      exact h.1.symm
    · cases hds : (socks5Connect cfg cache w 0 temp rd).dials with
      | nil => exact socks5Connect_cache cfg cache w 0 temp rd hds
      | cons d ds =>
        have h := socks5Connect_route cfg cache w 0 temp rd d (by rw [hds]; simp)
        simp only [if_true, Option.some.injEq, Prod.mk.injEq] at h
        exact h.2.symm
    · intro d hd
      have h := socks5Connect_route cfg cache w 0x81 temp rd d hd
      simpa using h
  · have h := socks5Connect_domain cfg cache w 0 temp body hi lo rest cfg.Socks5 cache htemp hL
      hstale (by simp)
    simpa using h
  · obtain ⟨ch, cache1, hr⟩ := getProxyConnect_total cfg cache (body.map complement) hn
    have h := socks5Connect_domain cfg cache w 0x81 temp body hi lo rest ch cache1 htemp hL
      hstale (by simp [hr])
    simp only [if_true] at h
    refine ⟨ch, cache1, hr, h, ?_⟩
    have h2 := socks5Connect_route cfg cache w 0x81 temp
      { buf := [], pending := (5 :: 1 :: 0 :: 3 :: body.length :: (body ++ [hi, lo])) :: rest }
      { channel := ch, domain := body.map complement, port := (hi * 256 % 65536 + lo) % 65536 }
      (by rw [h]; simp)
    simp only [show ¬ ((0x81 : Nat) = 0) from by decide, if_false, hr, Option.some.injEq,
      Prod.mk.injEq, true_and] at h2
    exact h2.symm

set_option maxRecDepth 100000 in
/-- C16 at the sample table, an empty cache, a fresh buffer and the request for
the complemented bytes of `a.example.com`, port 443. -/
theorem C16_method_routing_witness :
    (makeBytes 355).length = 355 ∧
    (socks5Connect sampleConfig [] World.good 0 (makeBytes 355)
      { buf := [], pending := [5 :: 1 :: 0 :: 3 ::
          ((bytesOf "a.example.com").map complement).length ::
          ((bytesOf "a.example.com").map complement ++ [1, 187])] }).dials
      = [{ channel := sampleConfig.Socks5, domain := (bytesOf "a.example.com").map complement,
           port := (1 * 256 % 65536 + 187) % 65536 }] :=
  ⟨by decide,
    (C16_method_routing sampleConfig [] World.good (makeBytes 355)
      ((bytesOf "a.example.com").map complement) 1 187 [] (by decide) (by decide) (by decide)
      sampleConfig_normalized).2.1⟩

set_option maxRecDepth 100000 in
/-- C19 (the code at the failing input): the greeting `05 03 01 02 81` offers
three methods; when only its first three bytes have arrived the handler reads
no further, ranges over `01 00 00` (the method byte and two bytes of the fresh
buffer) and replies `05 00`, a method the client did not offer, where the whole
greeting read in one piece gets `05 81`.  The greeting `05 01 81` is complete
with three bytes, but the handler asks for 2 + 0x81 = 131 bytes and, the client
sending nothing more, returns without a reply; the complete greeting
`05 01 00` gets its reply `05 00`. -/
theorem C19_minimum_from_first_method :
    (doProxy sampleConfig [] World.good [[5, 3, 1], [2, 0x81]]).toClient = [5, 0] ∧
    (doProxy sampleConfig [] World.good [[5, 3, 1, 2, 0x81]]).toClient = [5, 0x81] ∧
    (doProxy sampleConfig [] World.good [[5, 1, 0x81]]).toClient = [] ∧
    (doProxy sampleConfig [] World.good [[5, 1, 0x81]]).status = .closed ∧
    (ReadAtLeast { buf := [5, 1, 0x81], pending := [] } (makeBytes 355)
      (2 + at_ [5, 1, 0x81] 2) [5, 1, 0x81]).ok = false ∧
    2 + at_ [5, 1, 0x81] 2 = 131 ∧
    (doProxy sampleConfig [] World.good [[5, 1, 0]]).toClient = [5, 0] := by
  refine ⟨?_, ?_, ?_, ?_, ?_, ?_, ?_⟩ <;> decide

/-- A request whose command byte is not 0x01 ends the SOCKS5 branch without
any connector call. -/
theorem socks5Connect_command (cfg : ConfigT) (cache : Cache) (w : World) (method : Nat)
    (temp hdr : Str) (rd rd2 : Reader) (hpeek : rd.Peek 5 = (some hdr, rd2))
    (hcmd : at_ hdr 1 ≠ 1) :
    (socks5Connect cfg cache w method temp rd).dials = [] ∧
    (socks5Connect cfg cache w method temp rd).status = .closed := by
  unfold socks5Connect
  simp [hpeek, hcmd, Outcome.quiet]

set_option maxRecDepth 100000 in
/-- C20 (the code at the failing input): the request `05 01 00 09 01 02 03`,
whose address type 0x09 is none of 0x01, 0x03, 0x04, passes the `switch`
without a matching case; under method 0x00 the handler calls the connector of
the socks5 channel with an empty domain and port 0, replies with success when
that call succeeds and goes on to relay; under method 0x81 it calls
`getProxyConnect` with the empty domain, which gets an entry in the cache.  A
request with command 0x02 is dropped without a connector call. -/
theorem C20_unknown_address_type_dials :
    (doProxy sampleConfig [] World.good [[5, 1, 0], [5, 1, 0, 9, 1, 2, 3]]).dials
      = [{ channel := sampleConfig.Socks5, domain := [], port := 0 }] ∧
    (doProxy sampleConfig [] World.good [[5, 1, 0], [5, 1, 0, 9, 1, 2, 3]]).status = .relay ∧
    (doProxy sampleConfig [] World.good [[5, 1, 0], [5, 1, 0, 9, 1, 2, 3]]).toClient
      = [5, 0] ++ [5, 0, 0, 1, 0, 0, 0, 0, 0, 0] ∧
    (doProxy sampleConfig [] World.refusing [[5, 1, 0], [5, 1, 0, 9, 1, 2, 3]]).dials
      = [{ channel := sampleConfig.Socks5, domain := [], port := 0 }] ∧
    (doProxy sampleConfig [] World.good [[5, 2, 0, 0x81], [5, 1, 0, 9, 1, 2, 3]]).dials
      = [{ channel := sampleConfig.Default, domain := [], port := 0 }] ∧
    (doProxy sampleConfig [] World.good [[5, 2, 0, 0x81], [5, 1, 0, 9, 1, 2, 3]]).cache
      = [([], .configDefault)] ∧
    (doProxy sampleConfig [] World.good [[5, 1, 0], [5, 2, 0, 3, 1, 97, 0, 80]]).dials = [] ∧
    (doProxy sampleConfig [] World.good [[5, 1, 0], [5, 2, 0, 3, 1, 97, 0, 80]]).status
      = .closed := by
  refine ⟨?_, ?_, ?_, ?_, ?_, ?_, ?_, ?_⟩ <;> decide

/-! ## The HTTP proxy connector -/

/-- C17 (the code at the failing input): the format of line 190 has four verbs
and two operands, so the request line names the destination and the `Host`
header reads `%!v(MISSING):%!v(MISSING)`, for every host and port; for
`example.com` and 443 the bytes written differ from the request with the
header `Host: example.com:443`. -/
theorem C17_host_header_missing :
    (∀ h p, httpProxyRequest h p
      = bytesOf "CONNECT " ++ h ++ bytesOf ":" ++ decimal p
          ++ bytesOf " HTTP/1.1\r\nHost: %!v(MISSING):%!v(MISSING)\r\n\r\n") ∧
    httpProxyRequest (bytesOf "example.com") 443
      = bytesOf "CONNECT example.com:443 HTTP/1.1\r\nHost: %!v(MISSING):%!v(MISSING)\r\n\r\n" ∧
    httpProxyRequest (bytesOf "example.com") 443
      ≠ bytesOf "CONNECT example.com:443 HTTP/1.1\r\nHost: example.com:443\r\n\r\n" := by
  have hgen : ∀ h p, httpProxyRequest h p
      = bytesOf "CONNECT " ++ h ++ bytesOf ":" ++ decimal p
          ++ bytesOf " HTTP/1.1\r\nHost: %!v(MISSING):%!v(MISSING)\r\n\r\n" := by
    intro h p
    simp [httpProxyRequest, Sprintf, bytesOf]
  refine ⟨hgen, ?_, ?_⟩
  · rw [hgen, decimal_443]
    decide
  · rw [hgen, decimal_443]
    decide

/-- One `Read` into a one-byte buffer on a connection whose chunks are not
empty takes the next byte of the stream. -/
theorem connRead_one (conn : List Str) (x : Nat) (s : Str) (hne : ∀ c ∈ conn, c ≠ [])
    (hflat : conn.flatten = x :: s) :
    ∃ conn1, connRead conn 1 = some ([x], conn1) ∧ (∀ c ∈ conn1, c ≠ []) ∧
      conn1.flatten = s := by
  cases conn with
  | nil => simp at hflat
  | cons c cs =>
    cases c with
    | nil => exact absurd rfl (hne [] (by simp))
    | cons y t =>
      simp only [List.flatten_cons, List.cons_append, List.cons.injEq] at hflat
      obtain ⟨rfl, hs⟩ := hflat
      cases t with
      | nil =>
        refine ⟨cs, by simp [connRead], fun c hc => hne c (by simp [hc]), by simpa using hs⟩
      | cons z t2 =>
        refine ⟨(z :: t2) :: cs, by simp [connRead], ?_, by simpa using hs⟩
        intro c hc
        rcases List.mem_cons.1 hc with rfl | h
        · simp
        · exact hne c (by simp [h])

/-- The loop of `connectHttpProxy` on a response `R` that ends with the blank
line and has it nowhere before, `buff` holding the first `j` bytes of `R`: it
returns, with the verdict on `R[9]` when `R` has at most 255 bytes and with
`http_proxy_failed` otherwise. -/
theorem httpProxyLoop_response (R more : Str)
    (hend : HasSuffix R (bytesOf "\r\n\r\n") = true)
    (honly : ∀ j, j < R.length → HasSuffix (R.take j) (bytesOf "\r\n\r\n") = false) :
    ∀ (fuel j : Nat) (conn : List Str), j ≤ R.length → j ≤ 255 →
      (∀ c ∈ conn, c ≠ []) → conn.flatten = R.drop j ++ more →
      min R.length 256 - j < fuel →
      httpProxyLoop fuel (R.take j) conn
        = some (if R.length ≤ 255 then (if at_ R 9 = 50 then .connected else .failed)
            else .failed) := by
  intro fuel
  induction fuel with
  | zero => intro j conn _ _ _ _ h; omega
  | succ fuel ih =>
    intro j conn hj hj255 hne hflat hfuel
    rw [httpProxyLoop]
    rcases Nat.lt_or_ge j R.length with hlt | hge
    · rw [honly j hlt]
      simp only [Bool.false_eq_true, if_false]
      have hdrop : R.drop j = R[j] :: R.drop (j + 1) := List.drop_eq_getElem_cons hlt
      rw [hdrop, List.cons_append] at hflat
      obtain ⟨conn1, hread, hne1, hflat1⟩ := connRead_one conn R[j] _ hne hflat
      rw [hread]
      have htake : R.take j ++ [at_ [R[j]] 0] = R.take (j + 1) := by
        rw [List.take_succ, List.getElem?_eq_getElem hlt]
        rfl
      simp only [htake, List.length_take, Nat.min_eq_left (Nat.succ_le_of_lt hlt)]
      by_cases h255 : j + 1 > 255
      · simp only [h255, if_true]
        rw [if_neg (by omega)]
      · simp only [h255, if_false]
        exact ih (j + 1) conn1 (Nat.succ_le_of_lt hlt) (by omega) hne1 hflat1 (by omega)
    · have hjR : j = R.length := Nat.le_antisymm hj hge
      subst hjR
      rw [List.take_length, hend]
      simp only [if_true, hj255]
      by_cases h9 : at_ R 9 = 50
      · simp [h9]
      · simp [h9]

set_option maxRecDepth 100000 in
/-- C18 (counterexample): a response of exactly 256 bytes, delivered in one
piece, with the status digit `2` at offset 9 and its only blank line at the
end, is refused with `http_proxy_failed`. -/
theorem C18_counterexample :
    (bytesOf "HTTP/1.1 200 OK\r\nX-Pad: " ++ List.replicate 228 97 ++ bytesOf "\r\n\r\n").length
      = 256 ∧
    at_ (bytesOf "HTTP/1.1 200 OK\r\nX-Pad: " ++ List.replicate 228 97 ++ bytesOf "\r\n\r\n") 9
      = 50 ∧
    Index (bytesOf "HTTP/1.1 200 OK\r\nX-Pad: " ++ List.replicate 228 97 ++ bytesOf "\r\n\r\n")
      (bytesOf "\r\n\r\n") = some 252 ∧
    connectHttpProxy
      [bytesOf "HTTP/1.1 200 OK\r\nX-Pad: " ++ List.replicate 228 97 ++ bytesOf "\r\n\r\n"]
      = some .failed := by
  refine ⟨?_, ?_, ?_, ?_⟩ <;> decide

/-- C18 (amended): for an upstream response `R` of at least 19 bytes that ends
with `\r\n\r\n` and has it nowhere before, the upstream delivering `R` (and
possibly more after it) in non-empty chunks of which the first has at least 17
bytes: if `R` has at most 255 bytes, `connectHttpProxy` succeeds exactly when
`R[9]` is `2` and fails with `http_proxy_failed` otherwise; if `R` has more
than 255 bytes it fails with `http_proxy_failed`. -/
theorem C18_http_proxy_response (R more c0 : Str) (rest : List Str)
    (h19 : 19 ≤ R.length) (hend : HasSuffix R (bytesOf "\r\n\r\n") = true)
    (honly : ∀ j, j < R.length → HasSuffix (R.take j) (bytesOf "\r\n\r\n") = false)
    (h17 : 17 ≤ c0.length) (hne : ∀ c ∈ rest, c ≠ [])
    (hflat : (c0 :: rest).flatten = R ++ more) :
    (R.length ≤ 255 →
      connectHttpProxy (c0 :: rest) = some (if at_ R 9 = 50 then .connected else .failed)) ∧
    (255 < R.length → connectHttpProxy (c0 :: rest) = some .failed) := by
  have hcat : c0 ++ rest.flatten = R ++ more := by simpa using hflat
  have htake : c0.take 17 = R.take 17 := by
    have h1 : (c0 ++ rest.flatten).take 17 = c0.take 17 := List.take_append_of_le_length h17
    have h2 : (R ++ more).take 17 = R.take 17 := List.take_append_of_le_length (by omega)
    rw [← h1, hcat, h2]
  have hdrop : c0.drop 17 ++ rest.flatten = R.drop 17 ++ more := by
    have h1 : (c0 ++ rest.flatten).drop 17 = c0.drop 17 ++ rest.flatten :=
      List.drop_append_of_le_length h17
    have h2 : (R ++ more).drop 17 = R.drop 17 ++ more := List.drop_append_of_le_length (by omega)
    rw [← h1, hcat, h2]
  have hbuff : overwrite (makeBytes 17) 0 (c0.take 17) = R.take 17 := by
    have hl : (c0.take 17).length = 17 := by rw [List.length_take]; omega
    rw [overwrite, hl, ← htake]
    simp [makeBytes]
  have hloop : ∀ conn1 : List Str, (∀ c ∈ conn1, c ≠ []) →
      conn1.flatten = c0.drop 17 ++ rest.flatten →
      httpProxyLoop 256 (overwrite (makeBytes 17) 0 (c0.take 17)) conn1
        = some (if R.length ≤ 255 then (if at_ R 9 = 50 then .connected else .failed)
            else .failed) := by
    intro conn1 hne1 hfl
    rw [hbuff]
    exact httpProxyLoop_response R more hend honly 256 17 conn1 (by omega) (by decide) hne1
      (by rw [hfl, hdrop]) (by omega)
  have hres : connectHttpProxy (c0 :: rest)
      = some (if R.length ≤ 255 then (if at_ R 9 = 50 then .connected else .failed)
          else .failed) := by
    by_cases hle : c0.length ≤ 17
    · have hc : c0.take 17 = c0 := List.take_of_length_le hle
      have hd : c0.drop 17 = [] := List.drop_of_length_le hle
      have hread : connRead (c0 :: rest) 17 = some (c0, rest) := by simp [connRead, hle]
      have := hloop rest hne (by rw [hd]; rfl)
      rw [hc] at this
      unfold connectHttpProxy
      dsimp only
      rw [hread]
      exact this
    · have hread : connRead (c0 :: rest) 17 = some (c0.take 17, c0.drop 17 :: rest) := by
        simp [connRead, hle]
      have := hloop (c0.drop 17 :: rest) (by
        intro c hc
        rcases List.mem_cons.1 hc with rfl | h
        · intro h0
          have := congrArg List.length h0
          simp only [List.length_drop, List.length_nil] at this
          omega
        · exact hne c h) (by simp)
      unfold connectHttpProxy
      dsimp only
      rw [hread]
      exact this
  constructor
  · intro h
    rw [hres, if_pos h]
  · intro h
    rw [hres, if_neg (by omega)]

/-- C18 at the response `HTTP/1.1 200 OK` with its blank line, 19 bytes
delivered in one piece. -/
theorem C18_http_proxy_response_witness :
    19 ≤ (bytesOf "HTTP/1.1 200 OK\r\n\r\n").length ∧
    HasSuffix (bytesOf "HTTP/1.1 200 OK\r\n\r\n") (bytesOf "\r\n\r\n") = true ∧
    (∀ j, j < (bytesOf "HTTP/1.1 200 OK\r\n\r\n").length →
      HasSuffix ((bytesOf "HTTP/1.1 200 OK\r\n\r\n").take j) (bytesOf "\r\n\r\n") = false) ∧
    connectHttpProxy [bytesOf "HTTP/1.1 200 OK\r\n\r\n"] = some .connected :=
  ⟨by decide, by decide, by decide,
    ((C18_http_proxy_response (bytesOf "HTTP/1.1 200 OK\r\n\r\n") []
      (bytesOf "HTTP/1.1 200 OK\r\n\r\n") [] (by decide) (by decide) (by decide) (by decide)
      (by simp) (by simp)).1 (by decide)).trans (by decide)⟩

end Goproxy
